import Mathlib
set_option maxHeartbeats 1000000
set_option synthInstance.maxHeartbeats 1000000

/-!
Verification of the file-organizer repository: a shallow embedding in Lean 4 of
the per-file decision-and-execution pipeline (src/organize.py), the rule engine
(src/src/rule_engine.py), the file-manager helpers (src/src/file_manager.py)
and the run statistics (src/src/run_stats.py, src/run_stats.py), together with
proofs and refutations of the specification's claims about them.

Modelling conventions:
* Paths are lists of components relative to the source directory; `[]` is the
  source directory itself.
* The filesystem is a finite association list from paths to nodes (file with
  data, or directory).  `shutil.move` is erase-then-insert, `Path.mkdir` with
  `parents=True` inserts every missing prefix.
* Python `datetime` values (`st_mtime`, `st_ctime`, `datetime.now()`) are Unix
  timestamps in seconds (`Int`); comparisons of `datetime` objects agree with
  comparisons of the underlying timestamps, and `timedelta(days=n)` is
  `86400 * n` seconds.  `strftime('%Y-%m-%d_')` is embedded by `strfDate`,
  which converts the timestamp to a civil date (standard days-to-civil
  algorithm) and zero-pads the fields.
* `calculate_file_hash` is modelled as an injective function of the file
  content (md5 collisions are ignored); a read failure yields `""` exactly as
  the Python function returns `""` after catching the exception.
* OS-level failures are injected through explicit environment sets: the paths
  on which `shutil.move`, `Path.unlink`, or reading for the hash raise.
* Python exceptions that the code does not catch (for example the
  `NameError`/`UnboundLocalError` raised in `organize.py`'s
  `_apply_date_prefix` when the mode is 'modified') are modelled by an error
  value that aborts the per-file loop.
-/

/-- Python exception kinds relevant to this code base. -/
inductive PyErr where
  | nameError : PyErr
  | typeError : PyErr
  | valueError : PyErr
  | osError : PyErr
deriving DecidableEq, Repr

/-! ### Decimal rendering of naturals (`Nat.repr`) and its injectivity

`organize.py` builds collision-resolved names with f-string interpolation of
an integer counter, i.e. decimal rendering.  Lean's `Nat.repr` is the same
decimal rendering; we prove it injective, which underpins the distinctness of
the candidate filenames `stem_1`, `stem_2`, … -/

/-- Decimal digit list of a natural number (most significant first), agreeing
with `Nat.toDigits 10`. -/
def natDigits (n : Nat) : List Char :=
  if h : n < 10 then [Nat.digitChar n]
  else natDigits (n / 10) ++ [Nat.digitChar (n % 10)]
decreasing_by exact Nat.div_lt_self (by omega) (by omega)

/-- Numeric value of a decimal digit character. -/
def charVal (c : Char) : Nat :=
  if c = '0' then 0 else if c = '1' then 1 else if c = '2' then 2 else
  if c = '3' then 3 else if c = '4' then 4 else if c = '5' then 5 else
  if c = '6' then 6 else if c = '7' then 7 else if c = '8' then 8 else 9

/-- Reading the digit list back with Horner evaluation. -/
def decodeDigits (cs : List Char) : Nat :=
  cs.foldl (fun a c => a * 10 + charVal c) 0

/-! ### Date rendering: `strftime('%Y-%m-%d_')` on a Unix timestamp -/

/-- Left-pad the decimal rendering of `n` with zeros to width `w`
(`strftime` zero-pads `%Y` to 4 and `%m`, `%d` to 2). -/
def padNum (w : Nat) (n : Nat) : String :=
  let s := Nat.repr n
  String.mk (List.replicate (w - s.length) '0') ++ s

/-- Civil date (year, month, day) of a day count relative to 1970-01-01,
the standard days-to-civil algorithm. -/
def civilFromDays (z0 : Int) : Int × Int × Int :=
  let z := z0 + 719468
  let era := Int.fdiv z 146097
  let doe := z - era * 146097
  let yoe := Int.fdiv (doe - Int.fdiv doe 1460 + Int.fdiv doe 36524 - Int.fdiv doe 146096) 365
  let y := yoe + era * 400
  let doy := doe - (365 * yoe + Int.fdiv yoe 4 - Int.fdiv yoe 100)
  let mp := Int.fdiv (5 * doy + 2) 153
  let d := doy - Int.fdiv (153 * mp + 2) 5 + 1
  let m := mp + (if mp < 10 then 3 else -9)
  (y + (if m ≤ 2 then 1 else 0), m, d)

/-- `datetime.fromtimestamp(t).strftime('%Y-%m-%d_')`. -/
def strfDate (t : Int) : String :=
  let c := civilFromDays (Int.fdiv t 86400)
  padNum 4 c.1.toNat ++ "-" ++ padNum 2 c.2.1.toNat ++ "-" ++ padNum 2 c.2.2.toNat ++ "_"

/-! ### Filename helpers: `pathlib` suffix/stem and the extension key -/

/-- Python `s.lower()`. -/
def pyLower (s : String) : String := String.mk (s.data.map Char.toLower)

/-- Index-from-the-end of the last `'.'` in the name: the number of characters
strictly after the last dot (equals the length when there is no dot). -/
def tailAfterDot (name : String) : Nat :=
  (name.data.reverse.takeWhile (fun c => c ≠ '.')).length

/-- `PurePath(name).suffix`: the part from the last dot on, provided that dot
is neither the first nor the last character; otherwise `""`. -/
def sufOf (name : String) : String :=
  let cs := name.data
  let k := tailAfterDot name
  if k < cs.length ∧ 1 ≤ k ∧ k + 1 < cs.length then String.mk (cs.drop (cs.length - k - 1))
  else ""

/-- `PurePath(name).stem`: the name with `sufOf` removed. -/
def stemOf (name : String) : String :=
  let cs := name.data
  let k := tailAfterDot name
  if k < cs.length ∧ 1 ≤ k ∧ k + 1 < cs.length then String.mk (cs.take (cs.length - k - 1))
  else name

/-- `item.suffix.lower().lstrip('.')`: the lowercased extension without the
leading dot, used as the key into the extension-to-category map. -/
def extOf (name : String) : String :=
  let cs := name.data
  let k := tailAfterDot name
  if k < cs.length ∧ 1 ≤ k ∧ k + 1 < cs.length then
    String.mk ((cs.drop (cs.length - k)).map Char.toLower)
  else ""

/-! ### The filesystem model -/

/-- A path, as components relative to the source directory. -/
abbrev FPath := List String

/-- Metadata and content of a regular file. -/
structure FileData where
  content : String
  size : Nat
  mtime : Int
  ctime : Int
deriving DecidableEq, Repr

/-- A directory entry: a regular file or a directory. -/
inductive Node where
  | file (d : FileData) : Node
  | dir : Node
deriving DecidableEq, Repr

/-- The filesystem under the source directory: an association list from paths
to nodes.  The order of the top-level entries is the `iterdir` listing order. -/
abbrev FS := List (FPath × Node)

namespace FS

/-- `Path.exists()`; the source directory `[]` always exists. -/
def existsPath (fs : FS) (p : FPath) : Bool :=
  p = [] || fs.any (fun e => e.1 = p)

/-- Look up the node at a path (the first entry with that key). -/
def lookupNode : FS → FPath → Option Node
  | [], _ => none
  | e :: rest, p => if e.1 = p then some e.2 else lookupNode rest p

/-- `Path.unlink()`: remove the entry at a path. -/
def erase : FS → FPath → FS
  | [], _ => []
  | e :: rest, p => if e.1 = p then erase rest p else e :: erase rest p

/-- `shutil.move(item, target)`: remove the source entry and add its node at
the target path (no-op if the source does not exist). -/
def move (fs : FS) (p q : FPath) : FS :=
  match lookupNode fs p with
  | some nd => (erase fs p) ++ [(q, nd)]
  | none => fs

/-- Nonempty prefixes of a path, shortest first. -/
def pathPrefixes (p : FPath) : List FPath :=
  (List.range p.length).map (fun i => p.take (i + 1))

/-- `Path.mkdir(parents=True, exist_ok=True)`. -/
def mkdirP (fs : FS) (p : FPath) : FS :=
  (pathPrefixes p).foldl (fun a q => if existsPath a q then a else a ++ [(q, Node.dir)]) fs

/-- Names of the immediate children of the source directory, in listing order. -/
def listing (fs : FS) : List String :=
  fs.filterMap (fun e => match e.1 with | [x] => some x | _ => none)

/-- The immediate children of the source directory together with their nodes. -/
def topLevel (fs : FS) : List (String × Node) :=
  fs.filterMap (fun e => match e.1 with | [x] => some (x, e.2) | _ => none)

/-- Well-formedness: no two entries at the same path. -/
def WF (fs : FS) : Prop :=
  (fs.map (fun e => e.1)).Nodup

end FS

/-! ### Run statistics: `FileStats` (src/src/run_stats.py) -/

/-- The counters of `FileStats.__init__` (src/src/run_stats.py). -/
structure FileStats where
  files_moved : Nat
  files_deleted : Nat
  files_skipped : Nat
  files_renamed : Nat
  total_processed : Nat
  directories_created : Nat
  total_size_bytes : Nat
deriving DecidableEq, Repr

/-- A freshly constructed `FileStats` object. -/
def FileStats.init : FileStats := ⟨0, 0, 0, 0, 0, 0, 0⟩

/-- The numeric instance attributes of `FileStats`, for which
`hasattr` succeeds and `getattr(...) + 1` is well-typed. -/
def numericAttrs : List String :=
  ["files_moved", "files_deleted", "files_skipped", "files_renamed",
   "total_processed", "directories_created", "total_size_bytes"]

/-- The remaining attributes of a `FileStats` object (the `file_type_counts`
dict and the methods): `hasattr` succeeds but `getattr(...) + 1` raises
`TypeError`. -/
def nonNumericAttrs : List String :=
  ["file_type_counts", "increment_count", "add_file_data",
   "_convert_bytes", "generate_report"]

/-- `setattr(self, m, getattr(self, m) + 1)` for a numeric attribute. -/
def FileStats.bumpField (s : FileStats) (m : String) : FileStats :=
  if m = "files_moved" then { s with files_moved := s.files_moved + 1 }
  else if m = "files_deleted" then { s with files_deleted := s.files_deleted + 1 }
  else if m = "files_skipped" then { s with files_skipped := s.files_skipped + 1 }
  else if m = "files_renamed" then { s with files_renamed := s.files_renamed + 1 }
  else if m = "total_processed" then { s with total_processed := s.total_processed + 1 }
  else if m = "directories_created" then { s with directories_created := s.directories_created + 1 }
  else if m = "total_size_bytes" then { s with total_size_bytes := s.total_size_bytes + 1 }
  else s

/-- `FileStats.increment_count` (src/src/run_stats.py lines 15-21): lowercase
the metric name; if it is an attribute, increment it and add
`1 if metric_name != "directories_created" else 0` to `total_processed`;
otherwise log a warning and ignore. -/
def FileStats.increment_count (s : FileStats) (metric : String) : Except PyErr FileStats :=
  let m := pyLower metric
  if m ∈ numericAttrs then
    let s1 := s.bumpField m
    .ok (if m ≠ "directories_created" then
          { s1 with total_processed := s1.total_processed + 1 } else s1)
  else if m ∈ nonNumericAttrs then .error .typeError
  else .ok s

/-- `increment_count` specialised to the metric names used by the file
manager, on which it never raises. -/
def FileStats.inc (s : FileStats) (m : String) : FileStats :=
  match s.increment_count m with
  | .ok s1 => s1
  | .error _ => s

/-! ### The rule engine (src/src/rule_engine.py) -/

/-- A JSON scalar or list value appearing as a rule-filter value. -/
inductive JVal where
  | str (s : String) : JVal
  | int (n : Int) : JVal
  | list (l : List String) : JVal
deriving DecidableEq, Repr

/-- Python `str()` of a filter value. -/
def pyStr : JVal → String
  | .str s => s
  | .int n => toString n
  | .list l =>
    let q := String.singleton (Char.ofNat 39)
    "[" ++ String.intercalate ", " (l.map (fun s => q ++ s ++ q)) ++ "]"

/-- Decimal digit run to a natural number. -/
def digitsToNat? (cs : List Char) : Option Nat :=
  if cs ≠ [] ∧ cs.all (fun c => c.isDigit) then
    some (cs.foldl (fun a c => a * 10 + (c.toNat - 48)) 0)
  else none

/-- Python `int(s)` on a string: an optional sign followed by digits;
anything else raises `ValueError` (`none` here). -/
def parseInt (s : String) : Option Int :=
  match s.data with
  | '-' :: rest => (digitsToNat? rest).map (fun n => -(n : Int))
  | '+' :: rest => (digitsToNat? rest).map (fun n => (n : Int))
  | cs => (digitsToNat? cs).map (fun n => (n : Int))

/-- `s.lower().lstrip('.')`. -/
def lowerStripDots (s : String) : String :=
  String.mk ((pyLower s).data.dropWhile (fun c => c = '.'))

/-- Python `s.startswith(p)`. -/
def pyStartsWith (s p : String) : Bool := decide (p.data <+: s.data)

/-- Python `s.endswith(p)`. -/
def pyEndsWith (s p : String) : Bool := decide (p.data <:+ s.data)

/-- The metadata of the file handed to the rule engine; `statOk = false`
models the `OSError` (vanished file / access denied) caught at the top of
`_check_filter`. -/
structure RFile where
  name : String
  size : Nat
  mtime : Int
  statOk : Bool
deriving DecidableEq, Repr

/-- `_check_filter` (src/src/rule_engine.py lines 59-117).  `now` is
`datetime.now()`.  Note the code's `older_than_days`/`newer_than_days`
branches compute `int(filter_value)` (whose `ValueError` is caught) but then
pass the *original* value to `timedelta(days=...)`, so a numeric string
raises an uncaught `TypeError`; a list value raises `TypeError` from
`int(...)` in all three numeric filters. -/
def checkFilter (now : Int) (f : RFile) (ft : String) (v : JVal) : Except PyErr Bool :=
  if f.statOk = false then .ok false
  else if ft = "extensions" then
    let fe := extOf f.name
    match v with
    | .list l => .ok (fe ∈ l.map lowerStripDots)
    | _ => .ok (fe = lowerStripDots (pyStr v))
  else if ft = "filename_contains" then
    let p := pyLower (pyStr v)
    if p = "" then .ok true
    else .ok (decide (p.data <:+: (pyLower f.name).data))
  else if ft = "filename_starts_with" then
    .ok (pyStartsWith (pyLower f.name) (pyLower (pyStr v)))
  else if ft = "filename_ends_with" then
    .ok (pyEndsWith (pyLower f.name) (pyLower (pyStr v)))
  else if ft = "min_size_mb" then
    match v with
    | .int n => .ok (decide ((f.size : Int) ≥ n * 1048576))
    | .str s =>
      match parseInt s with
      | some n => .ok (decide ((f.size : Int) ≥ n * 1048576))
      | none => .ok false
    | .list _ => .error .typeError
  else if ft = "older_than_days" then
    match v with
    | .int n => .ok (decide (f.mtime ≤ now - 86400 * n))
    | .str s =>
      match parseInt s with
      | some _ => .error .typeError
      | none => .ok false
    | .list _ => .error .typeError
  else if ft = "newer_than_days" then
    match v with
    | .int n => .ok (decide (f.mtime ≥ now - 86400 * n))
    | .str s =>
      match parseInt s with
      | some _ => .error .typeError
      | none => .ok false
    | .list _ => .error .typeError
  else .ok false

/-- A validated custom rule (after `load_rules`): priority defaulted, with its
filter dict (in insertion order) and its uninterpreted action dict. -/
structure Rule where
  rname : Option String
  priority : Int
  filters : List (String × JVal)
  action : List (String × JVal)
deriving DecidableEq, Repr

/-- One element of the top-level JSON list in the rules file. -/
inductive RawItem where
  | notDict : RawItem
  | dict (rname : Option String) (priority : Option Int)
      (filters : Option (List (String × JVal)))
      (action : Option (List (String × JVal))) : RawItem
deriving DecidableEq, Repr

/-- The possible states of the rules file. -/
inductive RulesSource where
  | missing : RulesSource
  | unreadable : RulesSource
  | notList : RulesSource
  | list (items : List RawItem) : RulesSource

/-- The per-item validation of `load_rules`: entries that are not dicts or
lack `filters`/`action` are dropped; `priority` defaults to 0. -/
def validRules (items : List RawItem) : List Rule :=
  items.filterMap (fun it =>
    match it with
    | .notDict => none
    | .dict nm pr fl ac =>
      match fl, ac with
      | some f, some a => some { rname := nm, priority := pr.getD 0, filters := f, action := a }
      | _, _ => none)

/-- The comparison used to sort rules: descending priority.  Python's
`list.sort(key=..., reverse=True)` is a stable descending sort, and a stable
sort with respect to a total preorder is unique, so `List.mergeSort` with
this comparison produces exactly the list the Python code produces. -/
def ruleLE (a b : Rule) : Bool := decide (b.priority ≤ a.priority)

/-- `load_rules` (src/src/rule_engine.py lines 11-42): missing file,
unparsable JSON or a non-list top level yield `[]`; otherwise validate each
entry and stable-sort by descending priority. -/
def load_rules (src : RulesSource) : List Rule :=
  match src with
  | .missing => []
  | .unreadable => []
  | .notList => []
  | .list items => (validRules items).mergeSort ruleLE

/-- Evaluation of one rule's filter dict: logical AND with short-circuit on
the first false filter (the inner loop of `find_matching_rule`). -/
def ruleMatches (now : Int) (f : RFile) : List (String × JVal) → Except PyErr Bool
  | [] => .ok true
  | (ft, v) :: rest =>
    match checkFilter now f ft v with
    | .error e => .error e
    | .ok false => .ok false
    | .ok true => ruleMatches now f rest

/-- `find_matching_rule` (src/src/rule_engine.py lines 45-56): first rule in
the sorted list all of whose filters hold. -/
def find_matching_rule (now : Int) (f : RFile) : List Rule → Except PyErr (Option Rule)
  | [] => .ok none
  | r :: rest =>
    match ruleMatches now f r.filters with
    | .error e => .error e
    | .ok true => .ok (some r)
    | .ok false => find_matching_rule now f rest

/-! ### Hashing and the shared collision-resolution loop -/

/-- `calculate_file_hash`: an injective function of the file content
(`"#" ++ content`, never empty), or `""` when reading raises (path injected
in `unhashable`, path missing, or path a directory) — the Python function
catches the exception and returns `""`. -/
def hashOf (unhashable : List FPath) (fs : FS) (p : FPath) : String :=
  if p ∈ unhashable then ""
  else
    match FS.lookupNode fs p with
    | some (Node.file d) => "#" ++ d.content
    | _ => ""

/-- The `while target_path.exists()` loop of `_execute_move`: starting from
the proposed target, append `_1`, `_2`, … between stem and suffix until a
free path is found.  The loop is fuel-bounded here; it is run with fuel
`fs.length + 1`, which is proved sufficient for well-formed filesystems. -/
def resolveTarget (fs : FS) (folder : FPath) (stem suf : String) :
    Nat → FPath → Nat → FPath
  | 0, tp, _ => tp
  | fuel + 1, tp, c =>
    if FS.existsPath fs tp then
      resolveTarget fs folder stem suf fuel (folder ++ [stem ++ "_" ++ Nat.repr c ++ suf]) (c + 1)
    else tp

namespace FileManager

/-- `_apply_date_prefix` (src/src/file_manager.py lines 46-60): for mode
'modified' or 'created', prepend `strftime('%Y-%m-%d_')` of the corresponding
timestamp unless the name already starts with exactly that string; any other
mode leaves the name unchanged. -/
def apply_date_prefixing (d : FileData) (fileName : String) (mode : Option String) : String :=
  if mode ≠ some "modified" ∧ mode ≠ some "created" then fileName
  else
    let t := if mode = some "modified" then d.mtime else d.ctime
    let ds := strfDate t
    if pyStartsWith fileName ds then fileName else ds ++ fileName

/-- `_handle_deduping` (src/src/file_manager.py lines 63-110).  Returns the
skip flag together with the filesystem, seen-hash set and stats after the
call.  A failed `unlink` (path in `undeletable`) is caught in the code and
makes the function return `False` with no counter change. -/
def handle_deduping (unhashable undeletable : List FPath) (fs : FS) (item : FPath)
    (target_folder : FPath) (final_file_name : String) (seen : List String)
    (deduping delete_duplicates dry_run : Bool) (stats : FileStats) :
    Bool × FS × List String × FileStats :=
  if ¬ deduping then (false, fs, seen, stats)
  else
    let h := hashOf unhashable fs item
    if h = "" then (false, fs, seen, stats)
    else
      let tp := target_folder ++ [final_file_name]
      if h ∈ seen then
        if delete_duplicates ∧ ¬ dry_run then
          if item ∈ undeletable then (false, fs, seen, stats)
          else (true, FS.erase fs item, seen, stats.inc "files_deleted")
        else (true, fs, seen, stats.inc "files_skipped")
      else
        let seen1 := h :: seen
        if FS.existsPath fs tp then
          let th := hashOf unhashable fs tp
          if h = th then
            if delete_duplicates ∧ ¬ dry_run then
              if item ∈ undeletable then (false, fs, seen1, stats)
              else (true, FS.erase fs item, seen1, stats.inc "files_deleted")
            else (true, fs, seen1, stats.inc "files_skipped")
          else (false, fs, seen1, stats)
        else (false, fs, seen1, stats)

/-- `_execute_move` (src/src/file_manager.py lines 130-151): on a dry run,
log and count a move without touching the filesystem; otherwise resolve name
collisions and move, counting `files_moved` on success and `files_skipped`
when `shutil.move` raises (path in `unmovable`, or source vanished). -/
def execute_move (unmovable : List FPath) (fs : FS) (item target_folder target_path : FPath)
    (final_file_name : String) (dry_run : Bool) (stats : FileStats) : FS × FileStats :=
  if dry_run then (fs, stats.inc "files_moved")
  else
    let tp := resolveTarget fs target_folder (stemOf final_file_name) (sufOf final_file_name)
      (fs.length + 1) target_path 1
    if item ∈ unmovable then (fs, stats.inc "files_skipped")
    else
      match FS.lookupNode fs item with
      | none => (fs, stats.inc "files_skipped")
      | some _ => (FS.move fs item tp, stats.inc "files_moved")

end FileManager

/-! ### The orchestrator (src/organize.py) -/

namespace Organize

/-- `_apply_date_prefix` (src/organize.py lines 62-73).  The 'modified'
branch assigns `date_modified` but the subsequent line reads `date_to_use`,
so mode 'modified' raises `NameError` (`UnboundLocalError`); mode 'created'
prepends the date string unconditionally (this version has no
double-prefix guard); other modes return the name unchanged. -/
def apply_date_prefixing (d : FileData) (fileName : String) (mode : Option String) :
    Except PyErr String :=
  if mode ≠ some "modified" ∧ mode ≠ some "created" then .ok fileName
  else if mode = some "modified" then .error .nameError
  else .ok (strfDate d.ctime ++ fileName)

/-- `_handle_archiving` (src/organize.py lines 87-91): nest the category
under `Archive` when a threshold is set and the modification time is
strictly before it. -/
def handle_archiving (cat : String) (date_modified : Int) (thr : Option Int) : List String :=
  match thr with
  | some t => if date_modified < t then [cat, "Archive"] else [cat]
  | none => [cat]

/-- `_handle_deduping` (src/organize.py lines 94-137): as the file-manager
version but without statistics. -/
def handle_deduping (unhashable undeletable : List FPath) (fs : FS) (item : FPath)
    (target_folder : FPath) (final_file_name : String) (seen : List String)
    (deduping delete_duplicates dry_run : Bool) : Bool × FS × List String :=
  if ¬ deduping then (false, fs, seen)
  else
    let h := hashOf unhashable fs item
    if h = "" then (false, fs, seen)
    else
      let tp := target_folder ++ [final_file_name]
      if h ∈ seen then
        if delete_duplicates ∧ ¬ dry_run then
          if item ∈ undeletable then (false, fs, seen)
          else (true, FS.erase fs item, seen)
        else (true, fs, seen)
      else
        let seen1 := h :: seen
        if FS.existsPath fs tp then
          let th := hashOf unhashable fs tp
          if h = th then
            if delete_duplicates ∧ ¬ dry_run then
              if item ∈ undeletable then (false, fs, seen1)
              else (true, FS.erase fs item, seen1)
            else (true, fs, seen1)
          else (false, fs, seen1)
        else (false, fs, seen1)

/-- `_execute_move` (src/organize.py lines 140-158): no statistics; the
returned flag reports whether `shutil.move` was actually performed
(observational instrumentation used to state the claims about moves). -/
def execute_move (unmovable : List FPath) (fs : FS) (item target_folder target_path : FPath)
    (final_file_name : String) (dry_run : Bool) : FS × Bool :=
  if dry_run then (fs, false)
  else
    let tp := resolveTarget fs target_folder (stemOf final_file_name) (sufOf final_file_name)
      (fs.length + 1) target_path 1
    if item ∈ unmovable then (fs, false)
    else
      match FS.lookupNode fs item with
      | none => (fs, false)
      | some _ => (FS.move fs item tp, true)

/-- The run-scoped flags and environment of `organize_files`.  `now` is
`datetime.now()`; `ftm` is the loaded `FILE_TYPE_MAP`; `confirmYes` is the
answer to the interactive deletion prompt; the three path sets inject
OS-level failures (which calls raise). -/
structure Cfg where
  dry_run : Bool
  in_place : Bool
  archive_older_than : Int
  min_size_mb : Int
  date_prefixing : Option String
  deduping : Bool
  delete_duplicates : Bool
  confirmYes : Bool
  now : Int
  ftm : List (String × String)
  unmovable : List FPath
  undeletable : List FPath
  unhashable : List FPath

/-- The date-prefixing mode after the validity check of lines 186-193:
modes other than 'modified'/'created' are disabled. -/
def effMode (cfg : Cfg) : Option String :=
  if cfg.date_prefixing = some "modified" ∨ cfg.date_prefixing = some "created" then
    cfg.date_prefixing
  else none

/-- `delete_duplicates` after the interactive confirmation of lines 195-202. -/
def effDelete (cfg : Cfg) : Bool :=
  if cfg.deduping ∧ cfg.delete_duplicates then cfg.confirmYes else cfg.delete_duplicates

/-- `min_size_bytes` (lines 182-183). -/
def minSizeBytes (cfg : Cfg) : Option Int :=
  if cfg.min_size_mb > 0 then some (cfg.min_size_mb * 1048576) else none

/-- `archive_threshold` (lines 177-179): `now - timedelta(days=archive_older_than)`. -/
def archiveThr (cfg : Cfg) : Option Int :=
  if cfg.archive_older_than > 0 then some (cfg.now - 86400 * cfg.archive_older_than) else none

/-- The size-eligibility test of line 218. -/
def sizeTooSmall (cfg : Cfg) (d : FileData) : Bool :=
  match minSizeBytes cfg with
  | some b => decide ((d.size : Int) < b)
  | none => false

/-- `FILE_TYPE_MAP.get(extension, 'Miscellaneous')` (line 79). -/
def categoryName (cfg : Cfg) (n : String) : String :=
  ((cfg.ftm.find? (fun e => e.1 = extOf n)).map (fun e => e.2)).getD "Miscellaneous"

/-- The mutable state threaded through the per-entry loop: the filesystem,
the intra-run seen-hash set, the number of `shutil.move` calls performed
(observational), and the pending uncaught exception, if any. -/
structure St where
  fs : FS
  seen : List String
  moves : Nat
  err : Option PyErr
deriving DecidableEq, Repr

/-- The body of the `for item in source_path.iterdir()` loop of
`organize_files` (src/organize.py lines 209-259) for the entry named `n`.
Directories are no-ops whether or not they are category folders (the
category-folder branch `continue`s, and other directories fail
`item.is_file()`); an uncaught exception stops the loop, modelled by the
`err` field being sticky. -/
def processEntry (cfg : Cfg) (s : St) (n : String) : St :=
  if s.err.isSome then s
  else
    match FS.lookupNode s.fs [n] with
    | none => s
    | some Node.dir => s
    | some (Node.file d) =>
      if pyStartsWith n "." then s
      else if sizeTooSmall cfg d then s
      else
        let folderName := if cfg.in_place then "." else categoryName cfg n
        match apply_date_prefixing d n (effMode cfg) with
        | .error e => { s with err := some e }
        | .ok fname =>
          let ffp := handle_archiving folderName d.mtime (archiveThr cfg)
          let target_folder : FPath :=
            if cfg.in_place then (if ffp.contains "Archive" then ["Archive"] else []) else ffp
          let target_path := target_folder ++ [fname]
          let fs1 := if ¬ (FS.existsPath s.fs target_folder) ∧ ¬ cfg.dry_run then
              FS.mkdirP s.fs target_folder else s.fs
          let dres :=
            if cfg.deduping then
              handle_deduping cfg.unhashable cfg.undeletable fs1 [n] target_folder fname
                s.seen cfg.deduping (effDelete cfg) cfg.dry_run
            else (false, fs1, s.seen)
          if dres.1 then { s with fs := dres.2.1, seen := dres.2.2 }
          else if target_path ≠ [n] then
            let mres := execute_move cfg.unmovable dres.2.1 [n] target_folder target_path
              fname cfg.dry_run
            let mv := if mres.2 then 1 else 0
            { s with fs := mres.1, seen := dres.2.2, moves := s.moves + mv }
          else { s with fs := dres.2.1, seen := dres.2.2 }

/-- `organize_files` (src/organize.py lines 161-261): fold the per-entry
pipeline over the listing of the source directory. -/
def organizeFiles (cfg : Cfg) (fs0 : FS) : St :=
  (FS.listing fs0).foldl (processEntry cfg) { fs := fs0, seen := [], moves := 0, err := none }

end Organize

/-! ### Concrete sample inputs used by witnesses and counterexamples -/

/-- A baseline flag configuration: real run, all features off, pdf and txt
mapped to Documents. -/
def baseCfg : Organize.Cfg :=
  { dry_run := false, in_place := false, archive_older_than := 0, min_size_mb := 0,
    date_prefixing := none, deduping := false, delete_duplicates := false,
    confirmYes := false, now := 0, ftm := [("pdf", "Documents"), ("txt", "Documents")],
    unmovable := [], undeletable := [], unhashable := [] }

/-- A sample regular file. -/
def dSample : FileData := { content := "payload", size := 5, mtime := 259200, ctime := 172800 }

/-! ### Claim C10: the FileStats total invariant -/

/-- The five metric names of the claim. -/
def fiveMetrics : List String :=
  ["files_moved", "files_deleted", "files_skipped", "files_renamed", "directories_created"]

/-- A sequence of `increment_count` calls. -/
def applyMetrics (s : FileStats) (ms : List String) : Except PyErr FileStats :=
  ms.foldlM FileStats.increment_count s

/-- The claimed invariant. -/
def statsInv (s : FileStats) : Prop :=
  s.total_processed = s.files_moved + s.files_deleted + s.files_skipped + s.files_renamed

deriving instance DecidableEq for Except

/-- Boolean form of "every filter of the rule evaluates true". -/
def matchesB (now : Int) (f : RFile) (r : Rule) : Bool :=
  match ruleMatches now f r.filters with
  | .ok true => true
  | _ => false

/-- Sample rule of priority 5 whose name filter matches the sample file. -/
def rHigh : Rule :=
  { rname := some "high", priority := 5, filters := [("filename_contains", JVal.str "rep")], action := [] }

/-- Second sample rule, same priority as `rHigh`. -/
def rTie : Rule :=
  { rname := some "tie", priority := 5, filters := [("extensions", JVal.str "pdf")], action := [] }

/-- Third sample rule, lower priority. -/
def rLow : Rule :=
  { rname := some "low", priority := 1, filters := [("extensions", JVal.str "pdf")], action := [] }

/-- A rules file holding the three sample rules (already in descending
order, so the stable sort is the identity and the list evaluates) plus one
malformed entry that validation drops. -/
def sampleRules : RulesSource :=
  RulesSource.list
    [RawItem.dict (some "high") (some 5) (some [("filename_contains", JVal.str "rep")]) (some []),
     RawItem.dict (some "tie") (some 5) (some [("extensions", JVal.str "pdf")]) (some []),
     RawItem.notDict,
     RawItem.dict (some "low") (some 1) (some [("extensions", JVal.str "pdf")]) (some [])]

/-- The sample file evaluated against the rules. -/
def sampleFile : RFile := { name := "Report.pdf", size := 10, mtime := 0, statOk := true }

/-- The k-th candidate filename of the collision loop: the proposed name
itself for `k = 0`, then `stem_k` with the suffix re-attached. -/
def candName (stem suf : String) (k : Nat) : String :=
  if k = 0 then stem ++ suf else stem ++ "_" ++ Nat.repr k ++ suf

/-- The k-th candidate path. -/
def cand (folder : FPath) (stem suf : String) (k : Nat) : FPath :=
  folder ++ [candName stem suf k]

/-- Sequential `Path.unlink` of a list of paths. -/
def eraseAll (fs : FS) (ps : List FPath) : FS := ps.foldl FS.erase fs

/-- Moving a batch of files that all resolve to the same destination folder
and filename, threading the filesystem and stats through `_execute_move`. -/
def moveAll (folder : FPath) (fname : String) (acc : FS × FileStats)
    (items : List FPath) : FS × FileStats :=
  items.foldl (fun a it =>
    FileManager.execute_move [] a.1 it folder (folder ++ [fname]) fname false a.2) acc

/-- Flags for the dedup scenario: dedup on, deletion as given (confirmed),
everything else off. -/
def cfgC2 (del : Bool) : Organize.Cfg :=
  { baseCfg with deduping := true, delete_duplicates := del, confirmYes := true }

/-- Top-level entries that a second run leaves alone: directories (always
no-ops), hidden files, files below the size threshold, and — in in-place
mode — non-archived files, whose destination equals their source. -/
def benign (cfg : Organize.Cfg) (x : String × Node) : Prop :=
  match x.2 with
  | Node.dir => True
  | Node.file d =>
    pyStartsWith x.1 "." = true ∨ Organize.sizeTooSmall cfg d = true ∨
      (cfg.in_place = true ∧
        (Organize.handle_archiving "." d.mtime (Organize.archiveThr cfg)).contains "Archive" = false)

theorem charVal_digitChar {n : Nat} (h : n < 10) : charVal (Nat.digitChar n) = n := by
  interval_cases n <;> rfl

theorem foldl_natDigits (n : Nat) :
    ∀ a : Nat, (natDigits n).foldl (fun a c => a * 10 + charVal c) a =
      a * 10 ^ (natDigits n).length + n := by
  induction n using Nat.strong_induction_on with
  | _ n ih =>
    intro a
    by_cases h : n < 10
    · rw [natDigits, dif_pos h]
      simp [List.foldl, charVal_digitChar h]
    · rw [natDigits, dif_neg h]
      have hd : n / 10 < n := Nat.div_lt_self (by omega) (by omega)
      rw [List.foldl_append]
      rw [ih (n / 10) hd a]
      simp only [List.foldl]
      have hm : n % 10 < 10 := Nat.mod_lt _ (by omega)
      rw [charVal_digitChar hm, List.length_append]
      have heq : (a * 10 ^ (natDigits (n / 10)).length + n / 10) * 10 + n % 10 =
          a * (10 ^ (natDigits (n / 10)).length * 10) + (n / 10 * 10 + n % 10) := by ring
      have h1 : n / 10 * 10 + n % 10 = n := by omega
      rw [heq, h1]
      simp [pow_succ]

theorem decodeDigits_natDigits (n : Nat) : decodeDigits (natDigits n) = n := by
  have := foldl_natDigits n 0
  simpa [decodeDigits] using this

theorem natDigits_injective : Function.Injective natDigits := by
  intro m n h
  have hm := decodeDigits_natDigits m
  have hn := decodeDigits_natDigits n
  rw [h] at hm
  omega

/-- With enough fuel, core's `Nat.toDigitsCore` computes `natDigits`. -/
theorem toDigitsCore_eq_natDigits :
    ∀ (fuel n : Nat) (ds : List Char), n < fuel →
      Nat.toDigitsCore 10 fuel n ds = natDigits n ++ ds := by
  intro fuel
  induction fuel with
  | zero => intro n ds h; omega
  | succ f ihf =>
    intro n ds h
    show Nat.toDigitsCore 10 (f + 1) n ds = natDigits n ++ ds
    rw [Nat.toDigitsCore]
    by_cases h0 : n / 10 = 0
    · have hn : n < 10 := by omega
      simp only [h0, if_pos rfl]
      rw [natDigits, dif_pos hn]
      have : n % 10 = n := Nat.mod_eq_of_lt hn
      simp [this]
    · simp only [h0, if_neg h0]
      have hlt : n / 10 < f := by
        have : n / 10 < n := Nat.div_lt_self (by omega) (by omega)
        omega
      rw [ihf (n / 10) _ hlt]
      have hn : ¬ n < 10 := by
        intro hc
        exact h0 (Nat.div_eq_of_lt hc)
      conv_rhs => rw [natDigits, dif_neg hn]
      simp

theorem repr_data (n : Nat) : (Nat.repr n).data = natDigits n := by
  show (List.asString (Nat.toDigitsCore 10 (n + 1) n [])).data = natDigits n
  rw [toDigitsCore_eq_natDigits (n + 1) n [] (by omega)]
  simp [List.asString]

theorem natRepr_injective : Function.Injective Nat.repr := by
  intro m n h
  apply natDigits_injective
  rw [← repr_data, ← repr_data, h]

theorem stemOf_append_sufOf (name : String) : stemOf name ++ sufOf name = name := by
  by_cases h : tailAfterDot name < name.data.length ∧ 1 ≤ tailAfterDot name ∧
      tailAfterDot name + 1 < name.data.length
  · simp only [stemOf, sufOf, if_pos h]
    have : name = String.mk name.data := rfl
    conv_rhs => rw [this]
    rw [show ∀ a b : List Char, String.mk a ++ String.mk b = String.mk (a ++ b) from
      fun a b => rfl]
    rw [List.take_append_drop]
  · simp only [stemOf, sufOf, if_neg h]
    simp

/-! ### Shared helper lemmas -/

theorem pyStartsWith_append (p x : String) : pyStartsWith (p ++ x) p = true := by
  simp [pyStartsWith]

theorem increment_count_files_moved (s : FileStats) :
    s.increment_count "files_moved" = Except.ok { s with files_moved := s.files_moved + 1, total_processed := s.total_processed + 1 } := by
  have h : pyLower "files_moved" = "files_moved" := by decide
  simp [FileStats.increment_count, h, numericAttrs, FileStats.bumpField]

theorem increment_count_files_deleted (s : FileStats) :
    s.increment_count "files_deleted" = Except.ok { s with files_deleted := s.files_deleted + 1, total_processed := s.total_processed + 1 } := by
  have h : pyLower "files_deleted" = "files_deleted" := by decide
  simp [FileStats.increment_count, h, numericAttrs, FileStats.bumpField]

theorem increment_count_files_skipped (s : FileStats) :
    s.increment_count "files_skipped" = Except.ok { s with files_skipped := s.files_skipped + 1, total_processed := s.total_processed + 1 } := by
  have h : pyLower "files_skipped" = "files_skipped" := by decide
  simp [FileStats.increment_count, h, numericAttrs, FileStats.bumpField]

theorem increment_count_files_renamed (s : FileStats) :
    s.increment_count "files_renamed" = Except.ok { s with files_renamed := s.files_renamed + 1, total_processed := s.total_processed + 1 } := by
  have h : pyLower "files_renamed" = "files_renamed" := by decide
  simp [FileStats.increment_count, h, numericAttrs, FileStats.bumpField]

theorem increment_count_directories_created (s : FileStats) :
    s.increment_count "directories_created" = Except.ok { s with directories_created := s.directories_created + 1 } := by
  have h : pyLower "directories_created" = "directories_created" := by decide
  simp [FileStats.increment_count, h, numericAttrs, FileStats.bumpField]

theorem inc_files_moved (s : FileStats) :
    s.inc "files_moved" = { s with files_moved := s.files_moved + 1, total_processed := s.total_processed + 1 } := by
  simp [FileStats.inc, increment_count_files_moved]

theorem inc_files_deleted (s : FileStats) :
    s.inc "files_deleted" = { s with files_deleted := s.files_deleted + 1, total_processed := s.total_processed + 1 } := by
  simp [FileStats.inc, increment_count_files_deleted]

theorem inc_files_skipped (s : FileStats) :
    s.inc "files_skipped" = { s with files_skipped := s.files_skipped + 1, total_processed := s.total_processed + 1 } := by
  simp [FileStats.inc, increment_count_files_skipped]

/-! ### Claim C9: the archiving boundary is strict -/

/-- C9: with an archive age threshold configured, the resolved category is
nested under `Archive` exactly when the file's modification time is strictly
earlier than `now - days`; at exact equality the file is not archived. -/
theorem archiving_strictly_older (cfg : Organize.Cfg) (hpos : 0 < cfg.archive_older_than)
    (cat : String) (m : Int) :
    (Organize.handle_archiving cat m (Organize.archiveThr cfg) = [cat, "Archive"]
      ↔ m < cfg.now - 86400 * cfg.archive_older_than) ∧
    (m = cfg.now - 86400 * cfg.archive_older_than →
      Organize.handle_archiving cat m (Organize.archiveThr cfg) = [cat]) := by
  have ht : Organize.archiveThr cfg = some (cfg.now - 86400 * cfg.archive_older_than) := by
    unfold Organize.archiveThr
    rw [if_pos hpos]
  rw [ht]
  unfold Organize.handle_archiving
  constructor
  · by_cases h : m < cfg.now - 86400 * cfg.archive_older_than
    · simp [h]
    · simp [h]
  · intro he
    have h : ¬ m < cfg.now - 86400 * cfg.archive_older_than := by omega
    simp [h]

/-- Witness for C9 at a concrete configuration: ten-day threshold, a file
timestamped exactly ten days before `now` is not archived, one second older is. -/
theorem archiving_strictly_older_witness :
    Organize.handle_archiving "Documents" 100 (Organize.archiveThr { baseCfg with archive_older_than := 10, now := 864100 }) = ["Documents"] ∧
    Organize.handle_archiving "Documents" 99 (Organize.archiveThr { baseCfg with archive_older_than := 10, now := 864100 }) = ["Documents", "Archive"] := by
  constructor
  · exact (archiving_strictly_older { baseCfg with archive_older_than := 10, now := 864100 } (by decide) "Documents" 100).2 (by decide)
  · exact (archiving_strictly_older { baseCfg with archive_older_than := 10, now := 864100 } (by decide) "Documents" 99).1.mpr (by decide)

theorem increment_count_five_inv (s : FileStats) (m : String) (hm : m ∈ fiveMetrics)
    (hs : statsInv s) :
    ∀ s1, s.increment_count m = Except.ok s1 → statsInv s1 := by
  intro s1 h1
  simp only [fiveMetrics, List.mem_cons, List.mem_singleton] at hm
  rcases hm with rfl | rfl | rfl | rfl | rfl | h
  · rw [increment_count_files_moved] at h1
    cases h1
    simp_all [statsInv]
    omega
  · rw [increment_count_files_deleted] at h1
    cases h1
    simp_all [statsInv]
    omega
  · rw [increment_count_files_skipped] at h1
    cases h1
    simp_all [statsInv]
    omega
  · rw [increment_count_files_renamed] at h1
    cases h1
    simp_all [statsInv]
    omega
  · rw [increment_count_directories_created] at h1
    cases h1
    simp_all [statsInv]
  · cases h

/-- C10: calls restricted to the five counter names preserve
`total_processed = files_moved + files_deleted + files_skipped + files_renamed`
after every call (hence along any call sequence from a fresh object);
`directories_created` never changes `total_processed`; and a metric name that
is not an attribute leaves the object unchanged. -/
theorem stats_total_invariant :
    (∀ (s : FileStats) (m : String), m ∈ fiveMetrics → statsInv s →
      ∀ s1, s.increment_count m = Except.ok s1 → statsInv s1) ∧
    (∀ (ms : List String), (∀ m ∈ ms, m ∈ fiveMetrics) →
      ∀ s1, applyMetrics FileStats.init ms = Except.ok s1 → statsInv s1) ∧
    (∀ s : FileStats, s.increment_count "directories_created" =
      Except.ok { s with directories_created := s.directories_created + 1 }) ∧
    (∀ (s : FileStats) (m : String), pyLower m ∉ numericAttrs → pyLower m ∉ nonNumericAttrs →
      s.increment_count m = Except.ok s) := by
  refine ⟨increment_count_five_inv, ?_, increment_count_directories_created, ?_⟩
  · have key : ∀ (ms : List String) (s : FileStats), (∀ m ∈ ms, m ∈ fiveMetrics) → statsInv s →
        ∀ s1, applyMetrics s ms = Except.ok s1 → statsInv s1 := by
      intro ms
      induction ms with
      | nil =>
        intro s _ hs s1 h1
        cases h1
        exact hs
      | cons m rest ih =>
        intro s hall hs s1 h1
        simp only [applyMetrics, List.foldlM] at h1
        cases hmid : s.increment_count m with
        | error e => rw [hmid] at h1; cases h1
        | ok smid =>
          rw [hmid] at h1
          have hsm := increment_count_five_inv s m (hall m (List.mem_cons_self m rest)) hs smid hmid
          exact ih smid (fun x hx => hall x (List.mem_cons_of_mem m hx)) hsm s1 h1
    intro ms hall s1 h1
    exact key ms FileStats.init hall rfl s1 h1
  · intro s m h1 h2
    unfold FileStats.increment_count
    simp [h1, h2]

/-- Witness for C10: a concrete call sequence, and a concrete unknown metric. -/
theorem stats_total_invariant_witness :
    (∀ s1, applyMetrics FileStats.init ["files_moved", "directories_created", "files_skipped"] = Except.ok s1 → statsInv s1) ∧
    FileStats.init.increment_count "bogus_metric" = Except.ok FileStats.init := by
  constructor
  · exact stats_total_invariant.2.1 ["files_moved", "directories_created", "files_skipped"] (by decide)
  · exact stats_total_invariant.2.2.2 FileStats.init "bogus_metric" (by decide) (by decide)

/-! ### Claim C6: exact date-prefixing semantics (file-manager version) -/

/-- C6: for mode 'modified' (resp. 'created') the final name is
`strftime('%Y-%m-%d_')` of the corresponding timestamp prepended to the
original name, except that a name already carrying exactly that prefix is
returned unchanged; any other mode returns the name unchanged.  The final
conjunct (idempotence) expresses "never double-prefixed". -/
theorem date_prefixing_exact (d : FileData) (name : String) (mode : Option String) :
    (mode = some "modified" →
      FileManager.apply_date_prefixing d name mode =
        if pyStartsWith name (strfDate d.mtime) then name else strfDate d.mtime ++ name) ∧
    (mode = some "created" →
      FileManager.apply_date_prefixing d name mode =
        if pyStartsWith name (strfDate d.ctime) then name else strfDate d.ctime ++ name) ∧
    (mode ≠ some "modified" ∧ mode ≠ some "created" →
      FileManager.apply_date_prefixing d name mode = name) ∧
    FileManager.apply_date_prefixing d (FileManager.apply_date_prefixing d name mode) mode =
      FileManager.apply_date_prefixing d name mode := by
  refine ⟨?_, ?_, ?_, ?_⟩
  · intro hm
    subst hm
    unfold FileManager.apply_date_prefixing
    simp
  · intro hm
    subst hm
    unfold FileManager.apply_date_prefixing
    simp
  · intro hm
    unfold FileManager.apply_date_prefixing
    rw [if_pos hm]
  · by_cases hm : mode = some "modified"
    · subst hm
      unfold FileManager.apply_date_prefixing
      simp only [reduceCtorEq, ne_eq, not_true_eq_false, false_and, if_false,
        Option.some.injEq, if_true]
      by_cases hs : pyStartsWith name (strfDate d.mtime)
      · simp [hs]
      · simp [hs, pyStartsWith_append]
    · by_cases hc : mode = some "created"
      · subst hc
        unfold FileManager.apply_date_prefixing
        simp only [reduceCtorEq, ne_eq, not_true_eq_false, and_false, if_false,
          Option.some.injEq, if_true]
        by_cases hs : pyStartsWith name (strfDate d.ctime)
        · simp [hs]
        · simp [hs, pyStartsWith_append]
      · unfold FileManager.apply_date_prefixing
        rw [if_pos ⟨hm, hc⟩, if_pos ⟨hm, hc⟩]

/-- Witness for C6: concrete evaluations through the theorem; the sample file
has mtime on 1970-01-04, so the prefix is `1970-01-04_`. -/
theorem date_prefixing_exact_witness :
    FileManager.apply_date_prefixing dSample "a.txt" (some "modified") = "1970-01-04_a.txt" ∧
    FileManager.apply_date_prefixing dSample "1970-01-04_a.txt" (some "modified") = "1970-01-04_a.txt" ∧
    FileManager.apply_date_prefixing dSample "a.txt" (some "weekly") = "a.txt" := by
  refine ⟨?_, ?_, ?_⟩
  · have h := (date_prefixing_exact dSample "a.txt" (some "modified")).1 rfl
    rw [h]
    decide
  · have h := (date_prefixing_exact dSample "1970-01-04_a.txt" (some "modified")).1 rfl
    rw [h]
    decide
  · exact (date_prefixing_exact dSample "a.txt" (some "weekly")).2.2.1 (by decide)

/-! ### Claim C4: rule precedence and first-match semantics -/

theorem ruleLE_trans (a b c : Rule) (hab : ruleLE a b) (hbc : ruleLE b c) : ruleLE a c := by
  simp only [ruleLE, decide_eq_true_eq] at *
  omega

theorem ruleLE_total (a b : Rule) : ruleLE a b || ruleLE b a := by
  simp only [ruleLE]
  by_cases h : b.priority ≤ a.priority
  · simp [h]
  · simp [h]
    omega

/-- `find_matching_rule` is the first-match search, provided no filter
evaluation raises. -/
theorem find_matching_rule_eq_find (now : Int) (f : RFile) :
    ∀ rs : List Rule, (∀ r ∈ rs, ∃ b, ruleMatches now f r.filters = Except.ok b) →
      find_matching_rule now f rs = Except.ok (rs.find? (matchesB now f)) := by
  intro rs
  induction rs with
  | nil => intro _; rfl
  | cons r rest ih =>
    intro hok
    obtain ⟨b, hb⟩ := hok r (List.mem_cons_self r rest)
    cases b with
    | true =>
      unfold find_matching_rule
      rw [hb, List.find?_cons_of_pos]
      simp [matchesB, hb]
    | false =>
      unfold find_matching_rule
      rw [hb, List.find?_cons_of_neg]
      · exact ih (fun x hx => hok x (List.mem_cons_of_mem r hx))
      · simp [matchesB, hb]

/-- C4: `find_matching_rule` on `load_rules` output returns the first rule,
in descending-priority order with equal-priority rules kept in source order,
whose filter set fully matches (the logical AND with short-circuit is the
definition of `ruleMatches`), and `none` when no rule fully matches.  The
hypothesis rules out the uncaught `TypeError`s of `_check_filter` (see C5). -/
theorem rule_precedence_first_match (now : Int) (f : RFile) (src : RulesSource)
    (hok : ∀ r ∈ load_rules src, ∃ b, ruleMatches now f r.filters = Except.ok b) :
    (find_matching_rule now f (load_rules src) =
      Except.ok ((load_rules src).find? (matchesB now f))) ∧
    ((load_rules src).Pairwise (fun a b => b.priority ≤ a.priority)) ∧
    (∀ items a b, src = RulesSource.list items →
      List.Sublist [a, b] (validRules items) → b.priority ≤ a.priority →
      List.Sublist [a, b] (load_rules src)) := by
  refine ⟨find_matching_rule_eq_find now f _ hok, ?_, ?_⟩
  · cases src with
    | missing => simp [load_rules]
    | unreadable => simp [load_rules]
    | notList => simp [load_rules]
    | list items =>
      have hs := @List.sorted_mergeSort _ ruleLE ruleLE_trans ruleLE_total (validRules items)
      exact hs.imp (fun h => by simpa [ruleLE] using h)
  · intro items a b hsrc hsub hba
    subst hsrc
    exact List.pair_sublist_mergeSort ruleLE_trans ruleLE_total
      (by simpa [ruleLE] using hba) hsub

theorem load_sampleRules : load_rules sampleRules = [rHigh, rTie, rLow] := by
  show (validRules _).mergeSort ruleLE = _
  rw [show validRules _ = [rHigh, rTie, rLow] from by decide]
  exact List.mergeSort_of_sorted (by decide)

/-- Witness for C4: on the sample rules the highest-priority matching rule is
returned. -/
theorem rule_precedence_first_match_witness :
    find_matching_rule 0 sampleFile (load_rules sampleRules) = Except.ok (some rHigh) := by
  have h := (rule_precedence_first_match 0 sampleFile sampleRules
    (by rw [load_sampleRules]; decide)).1
  rw [h, load_sampleRules]
  decide

/-! ### Claim C8: per-item I/O failures -/

/-- Counterexample to C8 as stated: a duplicate whose deletion fails
(`unlink` raises on `b.txt`) makes `_handle_deduping` return `False` with
`files_skipped` left at 0 and the file still present — the entry is *not*
marked "skipped"; it falls through to the normal move path. -/
theorem failed_delete_not_skipped_counterexample :
    FileManager.handle_deduping [] [["b.txt"]] [(["b.txt"], Node.file dSample)] ["b.txt"]
      ["Documents"] "b.txt" ["#payload"] true true false FileStats.init =
    (false, [(["b.txt"], Node.file dSample)], ["#payload"], FileStats.init) := by
  decide

/-- C8 (amended): a failed move in `_execute_move` marks the entry "skipped"
(`files_skipped` incremented, filesystem untouched); a failed duplicate
deletion in `_handle_deduping` is caught and makes the function return
`False` with no counter change and the file still in place, so the entry
falls through to the normal move path; neither failure propagates. -/
theorem per_item_io_failure_outcomes :
    (∀ (unm : List FPath) (fs : FS) (item folder tpath : FPath) (fname : String)
        (stats : FileStats), item ∈ unm →
      FileManager.execute_move unm fs item folder tpath fname false stats =
        (fs, { stats with files_skipped := stats.files_skipped + 1, total_processed := stats.total_processed + 1 })) ∧
    (∀ (unh und : List FPath) (fs : FS) (item folder : FPath) (fname : String)
        (seen : List String) (stats : FileStats),
      item ∈ und → hashOf unh fs item ∈ seen → hashOf unh fs item ≠ "" →
      FileManager.handle_deduping unh und fs item folder fname seen true true false stats =
        (false, fs, seen, stats)) := by
  constructor
  · intro unm fs item folder tpath fname stats hm
    unfold FileManager.execute_move
    rw [if_neg (by simp)]
    rw [if_pos (by simpa using hm)]
    rw [inc_files_skipped]
  · intro unh und fs item folder fname seen stats hund hseen hne
    unfold FileManager.handle_deduping
    simp [hne, hseen, hund]

/-- Witness for C8 at concrete inputs: a move that raises is counted as
skipped; a deletion that raises changes nothing and signals "proceed". -/
theorem per_item_io_failure_outcomes_witness :
    FileManager.execute_move [["a.txt"]] [(["a.txt"], Node.file dSample)] ["a.txt"]
      ["Documents"] ["Documents", "a.txt"] "a.txt" false FileStats.init =
      ([(["a.txt"], Node.file dSample)], { FileStats.init with files_skipped := 1, total_processed := 1 }) ∧
    FileManager.handle_deduping [] [["c.txt"]] [(["c.txt"], Node.file dSample)] ["c.txt"]
      ["Documents"] "c.txt" ["#payload"] true true false FileStats.init =
      (false, [(["c.txt"], Node.file dSample)], ["#payload"], FileStats.init) := by
  constructor
  · have h := per_item_io_failure_outcomes.1 [["a.txt"]] [(["a.txt"], Node.file dSample)]
      ["a.txt"] ["Documents"] ["Documents", "a.txt"] "a.txt" FileStats.init (by decide)
    rw [h]
    decide
  · have h := per_item_io_failure_outcomes.2 [] [["c.txt"]] [(["c.txt"], Node.file dSample)]
      ["c.txt"] ["Documents"] "c.txt" ["#payload"] FileStats.init (by decide) (by decide) (by decide)
    rw [h]

/-! ### Claim C3: collision resolution -/

theorem nodup_subset_length {α : Type} [DecidableEq α] {l l' : List α}
    (hn : l.Nodup) (hs : l ⊆ l') : l.length ≤ l'.length := by
  have h1 : l.toFinset.card = l.length := List.toFinset_card_of_nodup hn
  have h2 : l.toFinset ⊆ l'.toFinset := by
    intro x hx
    simp only [List.mem_toFinset] at *
    exact hs hx
  have h3 := Finset.card_le_card h2
  have h4 : l'.toFinset.card ≤ l'.length := l'.toFinset_card_le
  omega

theorem repr_length_pos (n : Nat) : 0 < (Nat.repr n).data.length := by
  rw [repr_data]
  rw [natDigits]
  by_cases h : n < 10
  · rw [dif_pos h]
    simp
  · rw [dif_neg h]
    simp

theorem candName_inj (stem suf : String) : ∀ i j : Nat,
    candName stem suf i = candName stem suf j → i = j := by
  have hdata : ∀ s t : String, s = t → s.data = t.data := fun s t h => by rw [h]
  intro i j h
  by_cases hi : i = 0
  · by_cases hj : j = 0
    · omega
    · exfalso
      rw [candName, if_pos hi, candName, if_neg hj] at h
      have h2 := hdata _ _ h
      simp only [String.data_append, List.append_assoc] at h2
      have h3 := List.append_cancel_left h2
      have h4 := congrArg List.length h3
      simp only [List.length_append, List.length_cons, List.length_nil] at h4
      have := repr_length_pos j
      omega
  · by_cases hj : j = 0
    · exfalso
      rw [candName, if_neg hi, candName, if_pos hj] at h
      have h2 := hdata _ _ h
      simp only [String.data_append, List.append_assoc] at h2
      have h3 := List.append_cancel_left h2
      have h4 := congrArg List.length h3
      simp only [List.length_append, List.length_cons, List.length_nil] at h4
      have := repr_length_pos i
      omega
    · rw [candName, if_neg hi, candName, if_neg hj] at h
      have h2 := hdata _ _ h
      simp only [String.data_append, List.append_assoc] at h2
      have h3 := List.append_cancel_left h2
      have h4 := List.append_cancel_left h3
      have h5 := List.append_cancel_right h4
      exact natRepr_injective (String.ext h5)

theorem cand_inj (folder : FPath) (stem suf : String) (i j : Nat)
    (h : cand folder stem suf i = cand folder stem suf j) : i = j := by
  unfold cand at h
  have h2 := List.append_cancel_left h
  exact candName_inj stem suf i j (by injection h2)

theorem candName_zero (fname : String) :
    candName (stemOf fname) (sufOf fname) 0 = fname := by
  rw [candName, if_pos rfl]
  exact stemOf_append_sufOf fname

/-- A candidate path is never the source directory. -/
theorem cand_ne_nil (folder : FPath) (stem suf : String) (k : Nat) :
    cand folder stem suf k ≠ [] := by
  unfold cand
  simp

/-- The collision loop, started at candidate `i`, walks along occupied
candidates and returns the first free one. -/
theorem resolveTarget_reaches (fs : FS) (folder : FPath) (stem suf : String) (k : Nat)
    (hocc : ∀ j, j < k → FS.existsPath fs (cand folder stem suf j) = true)
    (hfree : FS.existsPath fs (cand folder stem suf k) = false) :
    ∀ (fuel i : Nat), i ≤ k → k - i < fuel →
      resolveTarget fs folder stem suf fuel (cand folder stem suf i) (i + 1) =
        cand folder stem suf k := by
  intro fuel
  induction fuel with
  | zero => intro i _ h; omega
  | succ f ih =>
    intro i hik hfu
    by_cases hi : i = k
    · subst hi
      unfold resolveTarget
      rw [hfree]
      simp
    · have hlt : i < k := by omega
      unfold resolveTarget
      rw [hocc i hlt]
      simp only [if_true]
      have hstep : folder ++ [stem ++ "_" ++ Nat.repr (i + 1) ++ suf] =
          cand folder stem suf (i + 1) := by
        unfold cand candName
        rw [if_neg (by omega)]
      rw [hstep]
      exact ih (i + 1) (by omega) (by omega)

/-- If the first `m` candidates are all occupied then the directory has at
least `m` entries (candidates are pairwise distinct paths). -/
theorem occupied_le (fs : FS) (folder : FPath) (stem suf : String) (m : Nat)
    (hocc : ∀ j, j < m → FS.existsPath fs (cand folder stem suf j) = true) :
    m ≤ fs.length := by
  by_contra hc
  push_neg at hc
  have hmem : ∀ j, j < m → cand folder stem suf j ∈ fs.map (fun e => e.1) := by
    intro j hj
    have h := hocc j hj
    unfold FS.existsPath at h
    rcases Bool.or_eq_true_iff.mp h with h1 | h2
    · exact absurd (by simpa using h1) (cand_ne_nil folder stem suf j)
    · obtain ⟨e, he, hee⟩ := List.any_eq_true.mp h2
      rw [List.mem_map]
      exact ⟨e, he, by simpa using hee⟩
  have hsub : ((List.range m).map (cand folder stem suf)) ⊆ fs.map (fun e => e.1) := by
    intro x hx
    obtain ⟨j, hj, rfl⟩ := List.mem_map.mp hx
    exact hmem j (List.mem_range.mp hj)
  have hnd : ((List.range m).map (cand folder stem suf)).Nodup :=
    (List.nodup_range m).map (fun a b h => cand_inj folder stem suf a b h)
  have := nodup_subset_length hnd hsub
  simp at this
  omega

/-- Termination and correctness of the collision loop: with fuel
`fs.length + 1` the loop started at the proposed target returns a free path. -/
theorem resolveTarget_free (fs : FS) (folder : FPath) (fname : String) :
    FS.existsPath fs (resolveTarget fs folder (stemOf fname) (sufOf fname)
      (fs.length + 1) (folder ++ [fname]) 1) = false := by
  classical
  set stem := stemOf fname
  set suf := sufOf fname
  have hstart : folder ++ [fname] = cand folder stem suf 0 := by
    unfold cand
    rw [candName_zero]
  by_cases hex : ∃ k, FS.existsPath fs (cand folder stem suf k) = false
  · obtain ⟨kw, hkw⟩ := hex
    have hexn : ∃ k, ¬ (FS.existsPath fs (cand folder stem suf k) = true) := by
      exact ⟨kw, by simp [hkw]⟩
    have hk0free : FS.existsPath fs (cand folder stem suf (Nat.find hexn)) = false := by
      have h := Nat.find_spec hexn
      cases hb : FS.existsPath fs (cand folder stem suf (Nat.find hexn))
      · rfl
      · exact absurd hb h
    have hk0occ : ∀ j, j < Nat.find hexn → FS.existsPath fs (cand folder stem suf j) = true := by
      intro j hj
      have h := Nat.find_min hexn hj
      cases hb : FS.existsPath fs (cand folder stem suf j)
      · exact absurd (by simp [hb]) h
      · rfl
    have hk0le : Nat.find hexn ≤ fs.length := occupied_le fs folder stem suf _ hk0occ
    rw [hstart]
    have hr := resolveTarget_reaches fs folder stem suf (Nat.find hexn) hk0occ hk0free
      (fs.length + 1) 0 (by omega) (by omega)
    rw [hr]
    exact hk0free
  · exfalso
    push_neg at hex
    have hocc : ∀ j, j < fs.length + 1 → FS.existsPath fs (cand folder stem suf j) = true := by
      intro j _
      have := hex j
      cases hb : FS.existsPath fs (cand folder stem suf j)
      · exact absurd hb this
      · rfl
    have := occupied_le fs folder stem suf (fs.length + 1) hocc
    omega

theorem cand_ne_single (folder : FPath) (stem suf : String) (hfol : folder ≠ [])
    (k : Nat) (nm : String) : cand folder stem suf k ≠ [nm] := by
  unfold cand
  intro h
  have hlen := congrArg List.length h
  simp only [List.length_append, List.length_cons, List.length_nil] at hlen
  have : folder.length ≠ 0 := fun hz => hfol (List.length_eq_zero.mp hz)
  omega

theorem lookupNode_erase (fs : FS) (q p : FPath) (h : p ≠ q) :
    FS.lookupNode (FS.erase fs q) p = FS.lookupNode fs p := by
  induction fs with
  | nil => rfl
  | cons e rest ih =>
    by_cases he : e.1 = q
    · have hep : e.1 ≠ p := by
        rw [he]
        exact Ne.symm h
      rw [FS.erase, if_pos he, FS.lookupNode, if_neg hep]
      exact ih
    · rw [FS.erase, if_neg he, FS.lookupNode, FS.lookupNode]
      by_cases hp : e.1 = p
      · rw [if_pos hp, if_pos hp]
      · rw [if_neg hp, if_neg hp]
        exact ih

theorem lookupNode_append_of_ne (a : FS) (e : FPath × Node) (p : FPath) (h : p ≠ e.1) :
    FS.lookupNode (a ++ [e]) p = FS.lookupNode a p := by
  induction a with
  | nil =>
    rw [List.nil_append]
    simp only [FS.lookupNode]
    rw [if_neg (Ne.symm h)]
  | cons x rest ih =>
    rw [List.cons_append, FS.lookupNode, FS.lookupNode]
    by_cases hx : x.1 = p
    · rw [if_pos hx, if_pos hx]
    · rw [if_neg hx, if_neg hx]
      exact ih

theorem existsPath_append (a b : FS) (p : FPath) :
    FS.existsPath (a ++ b) p = (FS.existsPath a p || FS.existsPath b p) := by
  unfold FS.existsPath
  by_cases hp : p = []
  · simp [hp]
  · simp [hp, List.any_append]

theorem existsPath_erase (fs : FS) (q p : FPath) (h : p ≠ q) :
    FS.existsPath (FS.erase fs q) p = FS.existsPath fs p := by
  unfold FS.existsPath
  by_cases hp : p = []
  · simp [hp]
  · simp only [hp]
    induction fs with
    | nil => rfl
    | cons e rest ih =>
      by_cases he : e.1 = q
      · have hep : e.1 ≠ p := by
          rw [he]
          exact Ne.symm h
        rw [FS.erase, if_pos he]
        simp only [List.any_cons]
        rw [show (decide (e.1 = p)) = false by simp [hep]]
        simpa using ih
      · rw [FS.erase, if_neg he]
        simp only [List.any_cons]
        have := ih
        simp only [Bool.or_eq_true] at this ⊢
        by_cases hx : e.1 = p
        · simp [hx]
        · simp only [show (decide (e.1 = p)) = false by simp [hx]]
          simpa using ih

theorem existsPath_singleton_self (e : FPath × Node) :
    FS.existsPath [e] e.1 = true := by
  simp [FS.existsPath]

theorem existsPath_singleton_of_ne (e : FPath × Node) (p : FPath)
    (hp : p ≠ []) (h : p ≠ e.1) : FS.existsPath [e] p = false := by
  simp [FS.existsPath, hp, Ne.symm h]

theorem erase_append (a b : FS) (p : FPath) :
    FS.erase (a ++ b) p = FS.erase a p ++ FS.erase b p := by
  induction a with
  | nil => rfl
  | cons e rest ih =>
    rw [List.cons_append, FS.erase, FS.erase]
    by_cases he : e.1 = p
    · rw [if_pos he, if_pos he, ih]
    · rw [if_neg he, if_neg he, List.cons_append, ih]

theorem eraseAll_append_distrib (ps : List FPath) :
    ∀ (a b : FS), eraseAll (a ++ b) ps = eraseAll a ps ++ eraseAll b ps := by
  induction ps with
  | nil => intro a b; rfl
  | cons p rest ih =>
    intro a b
    show eraseAll (FS.erase (a ++ b) p) rest = _
    rw [erase_append]
    exact ih _ _

theorem erase_singleton_of_ne (e : FPath × Node) (p : FPath) (h : p ≠ e.1) :
    FS.erase [e] p = [e] := by
  rw [FS.erase, if_neg (Ne.symm h)]
  rfl

theorem eraseAll_singleton_of_disjoint (e : FPath × Node) (ps : List FPath)
    (h : ∀ p ∈ ps, p ≠ e.1) : eraseAll [e] ps = [e] := by
  induction ps with
  | nil => rfl
  | cons p rest ih =>
    show eraseAll (FS.erase [e] p) rest = [e]
    rw [erase_singleton_of_ne e p (h p (List.mem_cons_self p rest))]
    exact ih (fun q hq => h q (List.mem_cons_of_mem p hq))

theorem moveAll_cons (folder : FPath) (fname : String) (acc : FS × FileStats)
    (it : FPath) (items : List FPath) :
    moveAll folder fname acc (it :: items) =
      moveAll folder fname
        (FileManager.execute_move [] acc.1 it folder (folder ++ [fname]) fname false acc.2)
        items := rfl

theorem eraseAll_cons (fs : FS) (p : FPath) (ps : List FPath) :
    eraseAll fs (p :: ps) = eraseAll (FS.erase fs p) ps := rfl

/-- One batch-move step: with candidates `0..k-1` occupied and everything
from `k` on free, moving the next file lands it exactly at candidate `k`. -/
theorem execute_move_lands (folder : FPath) (fname : String) (fs : FS)
    (stats : FileStats) (nm : String) (d : FileData) (k : Nat)
    (hocc : ∀ j, j < k → FS.existsPath fs (cand folder (stemOf fname) (sufOf fname) j) = true)
    (hfree : FS.existsPath fs (cand folder (stemOf fname) (sufOf fname) k) = false)
    (hlknm : FS.lookupNode fs [nm] = some (Node.file d)) :
    FileManager.execute_move [] fs [nm] folder (folder ++ [fname]) fname false stats =
      (FS.erase fs [nm] ++ [(cand folder (stemOf fname) (sufOf fname) k, Node.file d)],
        stats.inc "files_moved") := by
  have hk_le : k ≤ fs.length := occupied_le fs folder _ _ k hocc
  have hstart : folder ++ [fname] = cand folder (stemOf fname) (sufOf fname) 0 := by
    unfold cand
    rw [candName_zero]
  have hresolved : resolveTarget fs folder (stemOf fname) (sufOf fname)
      (fs.length + 1) (folder ++ [fname]) 1 = cand folder (stemOf fname) (sufOf fname) k := by
    rw [hstart]
    exact resolveTarget_reaches fs folder _ _ k hocc hfree (fs.length + 1) 0
      (Nat.zero_le k) (by omega)
  unfold FileManager.execute_move
  rw [if_neg (by simp)]
  simp only [hresolved, List.not_mem_nil, if_false]
  rw [FS.move, hlknm]

theorem moveAll_go (folder : FPath) (fname : String) (hfol : folder ≠ []) :
    ∀ (rest : List (String × FileData)) (k : Nat) (fs : FS) (stats : FileStats),
      (∀ j, j < k → FS.existsPath fs (cand folder (stemOf fname) (sufOf fname) j) = true) →
      (∀ j, k ≤ j → FS.existsPath fs (cand folder (stemOf fname) (sufOf fname) j) = false) →
      (∀ p ∈ rest, FS.lookupNode fs [p.1] = some (Node.file p.2)) →
      ((rest.map Prod.fst).Nodup) →
      (moveAll folder fname (fs, stats) (rest.map (fun p => ([p.1] : FPath)))).1 =
        eraseAll fs (rest.map (fun p => [p.1])) ++
          (List.enumFrom k rest).map (fun e =>
            (cand folder (stemOf fname) (sufOf fname) e.1, Node.file e.2.2)) := by
  intro rest
  induction rest with
  | nil =>
    intro k fs stats _ _ _ _
    simp [moveAll, eraseAll, List.enumFrom]
  | cons pd rest ih =>
    intro k fs stats hocc hfree hlk hnd
    obtain ⟨nm, d⟩ := pd
    have hlknm : FS.lookupNode fs [nm] = some (Node.file d) :=
      hlk (nm, d) (List.mem_cons_self _ _)
    have hstep := execute_move_lands folder fname fs stats nm d k hocc
      (hfree k le_rfl) hlknm
    rw [List.map_cons, moveAll_cons]
    simp only []
    rw [hstep]
    have hnm_notin : nm ∉ rest.map Prod.fst := by
      have := hnd
      rw [List.map_cons, List.nodup_cons] at this
      exact this.1
    have hnd2 : (rest.map Prod.fst).Nodup := by
      have := hnd
      rw [List.map_cons, List.nodup_cons] at this
      exact this.2
    have hih := ih (k + 1)
      (FS.erase fs [nm] ++ [(cand folder (stemOf fname) (sufOf fname) k, Node.file d)])
      (stats.inc "files_moved")
      (by
        intro j hj
        rw [existsPath_append]
        by_cases hjk : j = k
        · subst hjk
          rw [existsPath_singleton_self (cand folder (stemOf fname) (sufOf fname) j, Node.file d)]
          simp
        · have hjlt : j < k := by omega
          rw [existsPath_erase fs [nm] _ (cand_ne_single folder _ _ hfol j nm)]
          rw [hocc j hjlt]
          simp)
      (by
        intro j hj
        rw [existsPath_append]
        rw [existsPath_erase fs [nm] _ (cand_ne_single folder _ _ hfol j nm)]
        rw [hfree j (by omega)]
        rw [existsPath_singleton_of_ne _ _ (cand_ne_nil folder _ _ j)
          (fun hc => (by omega : j ≠ k) (cand_inj folder _ _ j k hc))]
        simp)
      (by
        intro p hp
        have hp1 : p.1 ≠ nm := by
          intro hc
          exact hnm_notin (hc ▸ List.mem_map_of_mem Prod.fst hp)
        have hpath : ([p.1] : FPath) ≠ [nm] := by
          intro hc
          exact hp1 (by injection hc)
        rw [lookupNode_append_of_ne _ _ _
          (Ne.symm (cand_ne_single folder _ _ hfol k p.1))]
        rw [lookupNode_erase fs [nm] [p.1] hpath]
        exact hlk p (List.mem_cons_of_mem _ hp))
      hnd2
    rw [hih]
    have hdisj : ∀ q ∈ rest.map (fun p => ([p.1] : FPath)),
        q ≠ cand folder (stemOf fname) (sufOf fname) k := by
      intro q hq
      obtain ⟨p, _, rfl⟩ := List.mem_map.mp hq
      exact Ne.symm (cand_ne_single folder _ _ hfol k p.1)
    rw [eraseAll_append_distrib]
    rw [eraseAll_singleton_of_disjoint _ _ hdisj]
    rw [eraseAll_cons]
    rw [show List.enumFrom k ((nm, d) :: rest) = (k, (nm, d)) :: List.enumFrom (k + 1) rest from rfl]
    rw [List.map_cons]
    simp [List.append_assoc]

/-- C3: moving N files that all resolve to the same destination folder and
filename assigns them exactly the candidate names `stem`, `stem_1`, `stem_2`,
… in increasing, gap-free order of processing (first conjunct: the filesystem
after the batch holds the k-th file at the k-th candidate path); the
candidate names are pairwise distinct (second conjunct); the name pattern is
the source's numeric-suffix insertion between stem and extension (third and
fourth conjuncts); and the collision loop, run with fuel `|fs| + 1` as
`_execute_move` does, terminates at a free path on every finite directory
(fifth conjunct). -/
theorem collision_names_gap_free (folder : FPath) (fname : String) (hfol : folder ≠ [])
    (items : List (String × FileData)) (fs : FS) (stats : FileStats)
    (hfree : ∀ j, FS.existsPath fs (cand folder (stemOf fname) (sufOf fname) j) = false)
    (hlk : ∀ p ∈ items, FS.lookupNode fs [p.1] = some (Node.file p.2))
    (hnd : (items.map Prod.fst).Nodup) :
    ((moveAll folder fname (fs, stats) (items.map (fun p => ([p.1] : FPath)))).1 =
      eraseAll fs (items.map (fun p => [p.1])) ++
        (List.enumFrom 0 items).map (fun e =>
          (cand folder (stemOf fname) (sufOf fname) e.1, Node.file e.2.2))) ∧
    (∀ i j : Nat, i ≠ j →
      candName (stemOf fname) (sufOf fname) i ≠ candName (stemOf fname) (sufOf fname) j) ∧
    (candName (stemOf fname) (sufOf fname) 0 = fname) ∧
    (∀ k : Nat, 0 < k → candName (stemOf fname) (sufOf fname) k =
      stemOf fname ++ "_" ++ Nat.repr k ++ sufOf fname) ∧
    (∀ fs2 : FS, FS.existsPath fs2 (resolveTarget fs2 folder (stemOf fname) (sufOf fname)
      (fs2.length + 1) (folder ++ [fname]) 1) = false) := by
  refine ⟨?_, ?_, candName_zero fname, ?_, fun fs2 => resolveTarget_free fs2 folder fname⟩
  · exact moveAll_go folder fname hfol items 0 fs stats (by omega) (fun j _ => hfree j) hlk hnd
  · intro i j hij hc
    exact hij (candName_inj _ _ i j hc)
  · intro k hk
    rw [candName, if_neg (by omega)]

/-- Witness for C3: three distinct files all targeting `Docs/r.txt` end up as
`r.txt`, `r_1.txt`, `r_2.txt`. -/
theorem collision_names_gap_free_witness :
    (moveAll ["Docs"] "r.txt"
      ([(["a"], Node.file dSample), (["b"], Node.file dSample), (["c"], Node.file dSample)],
        FileStats.init)
      ([("a", dSample), ("b", dSample), ("c", dSample)].map (fun p => ([p.1] : FPath)))).1 =
      [(["Docs", "r.txt"], Node.file dSample), (["Docs", "r_1.txt"], Node.file dSample),
       (["Docs", "r_2.txt"], Node.file dSample)] := by
  have h := (collision_names_gap_free ["Docs"] "r.txt" (by decide)
    [("a", dSample), ("b", dSample), ("c", dSample)]
    [(["a"], Node.file dSample), (["b"], Node.file dSample), (["c"], Node.file dSample)]
    FileStats.init
    (by
      intro j
      simp [FS.existsPath, cand])
    (by
      intro p hp
      simp only [List.mem_cons, List.mem_singleton, List.not_mem_nil, or_false] at hp
      rcases hp with rfl | rfl | rfl <;> decide)
    (by decide)).1
  rw [h]
  decide

/-! ### Claim C5: the per-entry pipeline can raise out of the loop -/

/-- C5 is false of the code (and the spec right): with
`--date-prefixing modified` — a mode the startup validation accepts — the
first eligible file makes `_apply_date_prefix` read the unbound local
`date_to_use` (the 'modified' branch assigned `date_modified` instead), and
the resulting `NameError` propagates out of `organize_files`: the run aborts
with no file processed, the second entry never reached. -/
theorem modified_mode_crash_aborts_loop :
    Organize.organizeFiles { baseCfg with date_prefixing := some "modified" }
      [(["a.txt"], Node.file dSample), (["b.txt"], Node.file dSample)] =
      { fs := [(["a.txt"], Node.file dSample), (["b.txt"], Node.file dSample)],
        seen := [], moves := 0, err := some PyErr.nameError } := by
  decide

/-! ### Claim C7: a dry run never mutates the filesystem -/

theorem dedup_dry_fs (unh und : List FPath) (fs : FS) (item tf : FPath) (fname : String)
    (seen : List String) (dd del : Bool) :
    (Organize.handle_deduping unh und fs item tf fname seen dd del true).2.1 = fs := by
  unfold Organize.handle_deduping
  by_cases hdd : dd
  · simp only [hdd]
    by_cases hh : hashOf unh fs item = ""
    · simp [hh]
    · simp only [hh, if_false, if_neg hh]
      by_cases hs : hashOf unh fs item ∈ seen
      · simp [hs]
      · simp only [hs, if_neg hs]
        by_cases he : FS.existsPath fs (tf ++ [fname]) = true
        · simp only [he, if_true, if_pos he]
          by_cases ht : hashOf unh fs item = hashOf unh fs (tf ++ [fname])
          · simp [ht]
          · simp [ht]
        · simp [he]
  · simp [hdd]

theorem execute_move_dry (unm : List FPath) (fs : FS) (item tf tp : FPath) (fname : String) :
    Organize.execute_move unm fs item tf tp fname true = (fs, false) := rfl

theorem processEntry_dry_fs (cfg : Organize.Cfg) (hdry : cfg.dry_run = true)
    (s : Organize.St) (n : String) :
    (Organize.processEntry cfg s n).fs = s.fs := by
  unfold Organize.processEntry
  split
  · rfl
  · cases hlk : FS.lookupNode s.fs [n] with
    | none => simp [hlk]
    | some nd =>
      cases nd with
      | dir => simp [hlk]
      | file d =>
        simp only [hlk]
        by_cases hh : pyStartsWith n "." = true
        · simp [hh]
        · by_cases hsz : Organize.sizeTooSmall cfg d = true
          · simp [hh, hsz]
          · cases hap : Organize.apply_date_prefixing d n (Organize.effMode cfg) with
            | error e => simp [hh, hsz, hap]
            | ok fn =>
              simp [hh, hsz, hap, hdry, execute_move_dry, dedup_dry_fs, apply_ite]

/-- C7: under `dry_run` the whole run leaves the filesystem exactly as it
was — no directory created, no file moved, deleted or renamed (first
conjunct), while `_execute_move` still logs and counts the hypothetical move
as if successful (second conjunct, the file-manager version). -/
theorem dry_run_zero_effect (cfg : Organize.Cfg) (hdry : cfg.dry_run = true) (fs0 : FS) :
    (Organize.organizeFiles cfg fs0).fs = fs0 ∧
    (∀ (unm : List FPath) (fs : FS) (item tf tp : FPath) (fname : String) (stats : FileStats),
      FileManager.execute_move unm fs item tf tp fname true stats =
        (fs, { stats with files_moved := stats.files_moved + 1, total_processed := stats.total_processed + 1 })) := by
  constructor
  · have key : ∀ (names : List String) (s : Organize.St),
        ((names.foldl (Organize.processEntry cfg) s).fs = s.fs) := by
      intro names
      induction names with
      | nil => intro s; rfl
      | cons x rest ih =>
        intro s
        rw [List.foldl_cons]
        rw [ih (Organize.processEntry cfg s x)]
        exact processEntry_dry_fs cfg hdry s x
    exact key (FS.listing fs0) _
  · intro unm fs item tf tp fname stats
    show (if true then (fs, stats.inc "files_moved") else _) = _
    rw [if_pos rfl, inc_files_moved]

/-- Witness for C7: a concrete dry run over two files with dedup-delete
enabled changes nothing; the dry file-manager move counts one move. -/
theorem dry_run_zero_effect_witness :
    (Organize.organizeFiles
      { baseCfg with dry_run := true, deduping := true, delete_duplicates := true, confirmYes := true }
      [(["a.pdf"], Node.file dSample), (["b.pdf"], Node.file dSample)]).fs =
      [(["a.pdf"], Node.file dSample), (["b.pdf"], Node.file dSample)] ∧
    FileManager.execute_move [] [] ["x"] ["Docs"] ["Docs", "x"] "x" true FileStats.init =
      ([], { FileStats.init with files_moved := 1, total_processed := 1 }) := by
  constructor
  · exact (dry_run_zero_effect
      { baseCfg with dry_run := true, deduping := true, delete_duplicates := true, confirmYes := true }
      rfl [(["a.pdf"], Node.file dSample), (["b.pdf"], Node.file dSample)]).1
  · have h := (dry_run_zero_effect
      { baseCfg with dry_run := true, deduping := true, delete_duplicates := true, confirmYes := true }
      rfl []).2 [] [] ["x"] ["Docs"] ["Docs", "x"] "x" FileStats.init
    rw [h]
    decide

/-! ### Claim C2: deduplication of byte-identical files -/

/-- The model hash of an existing file is never the failure value `""`. -/
theorem hash_ne_empty (c : String) : ("#" ++ c : String) ≠ "" := by
  intro h
  have := congrArg (fun s => s.data.length) h
  simp at this

/-- C2: on a source directory holding `a.pdf` and `b.pdf` with byte-identical
content and dedup enabled: with delete-duplicates disabled exactly one file
is moved (`Documents/a.pdf`) and the later one stays in the source, the run
counting one move; with delete-duplicates enabled (and not a dry run) the
later file is removed and no copy of it appears anywhere — the destination
holds the single moved copy (first conjunct).  The later duplicate is the
one counted `files_skipped` by the file-manager version (second conjunct),
and a first occurrence — hash unseen, destination clear — is never itself
treated as a duplicate (third conjunct). -/
theorem dedup_two_identical_files (d1 d2 : FileData) (hcontent : d1.content = d2.content)
    (del : Bool) :
    (Organize.organizeFiles (cfgC2 del) [(["a.pdf"], Node.file d1), (["b.pdf"], Node.file d2)] =
      if del then
        { fs := [(["Documents"], Node.dir), (["Documents", "a.pdf"], Node.file d1)],
          seen := ["#" ++ d1.content], moves := 1, err := none }
      else
        { fs := [(["b.pdf"], Node.file d2), (["Documents"], Node.dir),
            (["Documents", "a.pdf"], Node.file d1)],
          seen := ["#" ++ d1.content], moves := 1, err := none }) ∧
    (∀ (und : List FPath) (fs : FS) (item tf : FPath) (fname : String) (seen : List String)
        (dry : Bool) (stats : FileStats),
      hashOf [] fs item ∈ seen → hashOf [] fs item ≠ "" →
      FileManager.handle_deduping [] und fs item tf fname seen true false dry stats =
        (true, fs, seen, stats.inc "files_skipped")) ∧
    (∀ (und : List FPath) (fs : FS) (item tf : FPath) (fname : String) (seen : List String)
        (del2 dry : Bool) (stats : FileStats),
      hashOf [] fs item ∉ seen → hashOf [] fs item ≠ "" →
      FS.existsPath fs (tf ++ [fname]) = false →
      FileManager.handle_deduping [] und fs item tf fname seen true del2 dry stats =
        (false, fs, hashOf [] fs item :: seen, stats)) := by
  refine ⟨?_, ?_, ?_⟩
  · obtain ⟨c1, sz1, mt1, ct1⟩ := d1
    obtain ⟨c2, sz2, mt2, ct2⟩ := d2
    have hc : c1 = c2 := hcontent
    subst hc
    cases del with
    | false =>
      simp [Organize.organizeFiles, FS.listing, Organize.processEntry, FS.lookupNode,
        Organize.sizeTooSmall, Organize.minSizeBytes,
        Organize.effMode, Organize.effDelete, Organize.apply_date_prefixing,
        Organize.handle_archiving, Organize.archiveThr, Organize.categoryName, extOf,
        tailAfterDot, FS.existsPath, FS.mkdirP, FS.pathPrefixes, Organize.handle_deduping,
        hashOf, hash_ne_empty, Organize.execute_move, resolveTarget, FS.move, FS.erase,
        pyStartsWith, cfgC2, baseCfg, List.range_succ]
    | true =>
      simp [Organize.organizeFiles, FS.listing, Organize.processEntry, FS.lookupNode,
        Organize.sizeTooSmall, Organize.minSizeBytes,
        Organize.effMode, Organize.effDelete, Organize.apply_date_prefixing,
        Organize.handle_archiving, Organize.archiveThr, Organize.categoryName, extOf,
        tailAfterDot, FS.existsPath, FS.mkdirP, FS.pathPrefixes, Organize.handle_deduping,
        hashOf, hash_ne_empty, Organize.execute_move, resolveTarget, FS.move, FS.erase,
        pyStartsWith, cfgC2, baseCfg, List.range_succ]
  · intro und fs item tf fname seen dry stats hseen hne
    unfold FileManager.handle_deduping
    simp [hseen, hne]
  · intro und fs item tf fname seen del2 dry stats hseen hne hex
    unfold FileManager.handle_deduping
    simp [hseen, hne, hex]

/-- Witness for C2 at concrete files: identical `a.pdf`/`b.pdf` with
delete-duplicates on yields one moved copy and no trace of `b.pdf`; the
file-manager dedup counts a skip for a seen hash with deletion off, and a
fresh hash is not a duplicate. -/
theorem dedup_two_identical_files_witness :
    Organize.organizeFiles (cfgC2 true) [(["a.pdf"], Node.file dSample), (["b.pdf"], Node.file dSample)] =
      { fs := [(["Documents"], Node.dir), (["Documents", "a.pdf"], Node.file dSample)],
        seen := ["#payload"], moves := 1, err := none } ∧
    FileManager.handle_deduping [] [] [(["b.pdf"], Node.file dSample)] ["b.pdf"] ["Documents"]
      "b.pdf" ["#payload"] true false false FileStats.init =
      (true, [(["b.pdf"], Node.file dSample)], ["#payload"], FileStats.init.inc "files_skipped") ∧
    FileManager.handle_deduping [] [] [(["a.pdf"], Node.file dSample)] ["a.pdf"] ["Documents"]
      "a.pdf" [] true false false FileStats.init =
      (false, [(["a.pdf"], Node.file dSample)], ["#payload"], FileStats.init) := by
  refine ⟨?_, ?_, ?_⟩
  · have h := (dedup_two_identical_files dSample dSample rfl true).1
    rw [h]
    try decide
  · have h := (dedup_two_identical_files dSample dSample rfl true).2.1 [] [(["b.pdf"], Node.file dSample)]
      ["b.pdf"] ["Documents"] "b.pdf" ["#payload"] false FileStats.init (by decide) (by decide)
    rw [h]
    try decide
  · have h := (dedup_two_identical_files dSample dSample rfl true).2.2 [] [(["a.pdf"], Node.file dSample)]
      ["a.pdf"] ["Documents"] "a.pdf" [] false false FileStats.init (by decide) (by decide) (by decide)
    rw [h]
    try decide

/-! ### Claim C1: idempotence of a second run -/

theorem lookupNode_erase_self (fs : FS) (p : FPath) :
    FS.lookupNode (FS.erase fs p) p = none := by
  induction fs with
  | nil => rfl
  | cons e rest ih =>
    by_cases he : e.1 = p
    · rw [FS.erase, if_pos he]
      exact ih
    · rw [FS.erase, if_neg he, FS.lookupNode, if_neg he]
      exact ih

theorem lookupNode_append_or (a b : FS) (p : FPath) :
    FS.lookupNode (a ++ b) p = (FS.lookupNode a p).or (FS.lookupNode b p) := by
  induction a with
  | nil => simp [FS.lookupNode]
  | cons e rest ih =>
    rw [List.cons_append, FS.lookupNode, FS.lookupNode]
    by_cases he : e.1 = p
    · rw [if_pos he, if_pos he]
      rfl
    · rw [if_neg he, if_neg he]
      exact ih

theorem mkdirP_lookup_some (fs : FS) (p q : FPath) (v : Node)
    (h : FS.lookupNode fs q = some v) : FS.lookupNode (FS.mkdirP fs p) q = some v := by
  unfold FS.mkdirP
  generalize FS.pathPrefixes p = ps
  induction ps generalizing fs with
  | nil => exact h
  | cons r rest ih =>
    rw [List.foldl_cons]
    apply ih
    by_cases he : FS.existsPath fs r = true
    · rw [if_pos he]
      exact h
    · rw [if_neg he, lookupNode_append_or, h]
      rfl

theorem mkdirP_lookup_inv (fs : FS) (p q : FPath) (v : Node)
    (h : FS.lookupNode (FS.mkdirP fs p) q = some v) :
    FS.lookupNode fs q = some v ∨ v = Node.dir := by
  unfold FS.mkdirP at h
  revert h
  generalize FS.pathPrefixes p = ps
  induction ps generalizing fs with
  | nil => intro h; exact Or.inl h
  | cons r rest ih =>
    intro h
    rw [List.foldl_cons] at h
    rcases ih _ h with h1 | h1
    · by_cases he : FS.existsPath fs r = true
      · rw [if_pos he] at h1
        exact Or.inl h1
      · rw [if_neg he, lookupNode_append_or] at h1
        cases hl : FS.lookupNode fs q with
        | some w =>
          rw [hl] at h1
          exact Or.inl (by simpa [Option.or] using h1)
        | none =>
          rw [hl] at h1
          simp only [Option.or] at h1
          right
          by_cases hq : r = q
          · subst hq
            rw [FS.lookupNode, if_pos rfl] at h1
            cases h1
            rfl
          · rw [FS.lookupNode, if_neg (fun hc => hq hc)] at h1
            cases h1
    · exact Or.inr h1

theorem append_single_ne_single (folder : FPath) (hfol : folder ≠ []) (a b : String) :
    folder ++ [a] ≠ [b] := by
  intro h
  have hlen := congrArg List.length h
  simp only [List.length_append, List.length_cons, List.length_nil] at hlen
  have : folder.length ≠ 0 := fun hz => hfol (List.length_eq_zero.mp hz)
  omega

theorem resolveTarget_shape (fs : FS) (folder : FPath) (stem suf : String) :
    ∀ (fuel : Nat) (tp : FPath) (c : Nat) (y : String), tp = folder ++ [y] →
      ∃ z, resolveTarget fs folder stem suf fuel tp c = folder ++ [z] := by
  intro fuel
  induction fuel with
  | zero => intro tp c y hy; exact ⟨y, hy⟩
  | succ f ih =>
    intro tp c y hy
    unfold resolveTarget
    by_cases he : FS.existsPath fs tp = true
    · rw [he]
      simp only [if_true]
      exact ih _ (c + 1) (stem ++ "_" ++ Nat.repr c ++ suf) rfl
    · rw [show FS.existsPath fs tp = false from by revert he; cases FS.existsPath fs tp <;> simp]
      simp only [Bool.false_eq_true, if_false]
      exact ⟨y, hy⟩

theorem effMode_none (cfg : Organize.Cfg) (hpre : cfg.date_prefixing = none) :
    Organize.effMode cfg = none := by
  simp [Organize.effMode, hpre]

theorem apply_none (d : FileData) (n : String) :
    Organize.apply_date_prefixing d n none = Except.ok n := by
  simp [Organize.apply_date_prefixing]

theorem processEntry_eligible_eval (cfg : Organize.Cfg) (s : Organize.St) (n : String)
    (d : FileData)
    (herr : s.err = none)
    (hlk : FS.lookupNode s.fs [n] = some (Node.file d))
    (hh : pyStartsWith n "." = false)
    (hsz : Organize.sizeTooSmall cfg d = false)
    (hpre : cfg.date_prefixing = none)
    (hded : cfg.deduping = false)
    (hdry : cfg.dry_run = false)
    (hunm : cfg.unmovable = []) :
    Organize.processEntry cfg s n =
      (let fn := if cfg.in_place then "." else Organize.categoryName cfg n
      let ffp := Organize.handle_archiving fn d.mtime (Organize.archiveThr cfg)
      let TF : FPath := if cfg.in_place then (if ffp.contains "Archive" then ["Archive"] else []) else ffp
      let fs1 := if ¬ FS.existsPath s.fs TF = true then FS.mkdirP s.fs TF else s.fs
      let mres := Organize.execute_move [] fs1 [n] TF (TF ++ [n]) n false
      if TF ++ [n] ≠ [n] then
        { s with fs := mres.1, seen := s.seen, moves := s.moves + (if mres.2 then 1 else 0) }
      else { s with fs := fs1, seen := s.seen }) := by
  unfold Organize.processEntry
  rw [herr]
  simp only [Option.isSome_none, Bool.false_eq_true, if_false, hlk]
  simp only [hh, Bool.false_eq_true, if_false, hsz, effMode_none cfg hpre, apply_none]
  simp only [hded, hdry, hunm, Bool.false_eq_true, if_false, not_false_eq_true, and_true,
    not_true_eq_false]

theorem execute_move_eval (fs : FS) (item TF tp : FPath) (fname : String) (v : Node)
    (hlk : FS.lookupNode fs item = some v) :
    Organize.execute_move [] fs item TF tp fname false =
      (FS.erase fs item ++
        [(resolveTarget fs TF (stemOf fname) (sufOf fname) (fs.length + 1) tp 1, v)], true) := by
  unfold Organize.execute_move FS.move
  simp [hlk]

/-- Entries whose name is not on disk are silently skipped. -/
theorem processEntry_lookup_none (cfg : Organize.Cfg) (s : Organize.St) (n : String)
    (h : FS.lookupNode s.fs [n] = none) : Organize.processEntry cfg s n = s := by
  unfold Organize.processEntry
  split
  · rfl
  · simp [h]

/-- Directory entries are no-ops (category folders are skipped; other
directories fail `is_file`). -/
theorem processEntry_dir (cfg : Organize.Cfg) (s : Organize.St) (n : String)
    (h : FS.lookupNode s.fs [n] = some Node.dir) : Organize.processEntry cfg s n = s := by
  unfold Organize.processEntry
  split
  · rfl
  · simp [h]

/-- Hidden files are skipped. -/
theorem processEntry_hidden (cfg : Organize.Cfg) (s : Organize.St) (n : String) (d : FileData)
    (hlk : FS.lookupNode s.fs [n] = some (Node.file d))
    (hh : pyStartsWith n "." = true) : Organize.processEntry cfg s n = s := by
  unfold Organize.processEntry
  split
  · rfl
  · simp [hlk, hh]

/-- Files below the size threshold are skipped. -/
theorem processEntry_small (cfg : Organize.Cfg) (s : Organize.St) (n : String) (d : FileData)
    (hlk : FS.lookupNode s.fs [n] = some (Node.file d))
    (hh : pyStartsWith n "." = false)
    (hsz : Organize.sizeTooSmall cfg d = true) : Organize.processEntry cfg s n = s := by
  unfold Organize.processEntry
  split
  · rfl
  · simp [hlk, hh, hsz]

/-- With date-prefixing off and dedup off, a dry run leaves the whole
per-entry state unchanged. -/
theorem processEntry_dry_noop (cfg : Organize.Cfg) (s : Organize.St) (n : String)
    (hpre : cfg.date_prefixing = none) (hded : cfg.deduping = false)
    (hdry : cfg.dry_run = true) : Organize.processEntry cfg s n = s := by
  unfold Organize.processEntry
  split
  · rfl
  · cases hlk : FS.lookupNode s.fs [n] with
    | none => simp [hlk]
    | some nd =>
      cases nd with
      | dir => simp [hlk]
      | file d =>
        simp only [hlk]
        by_cases hh : pyStartsWith n "." = true
        · simp [hh]
        · by_cases hsz : Organize.sizeTooSmall cfg d = true
          · simp [hh, hsz]
          · simp [hh, hsz, effMode_none cfg hpre, apply_none, hded, hdry,
              execute_move_dry, apply_ite]

/-- The in-place no-op: an eligible file that is not archived resolves to a
destination equal to its source and nothing happens. -/
theorem processEntry_inplace_noop (cfg : Organize.Cfg) (s : Organize.St) (n : String)
    (d : FileData)
    (herr : s.err = none)
    (hlk : FS.lookupNode s.fs [n] = some (Node.file d))
    (hh : pyStartsWith n "." = false)
    (hsz : Organize.sizeTooSmall cfg d = false)
    (hpre : cfg.date_prefixing = none) (hded : cfg.deduping = false)
    (hdry : cfg.dry_run = false) (hunm : cfg.unmovable = [])
    (hip : cfg.in_place = true)
    (harch : (Organize.handle_archiving "." d.mtime (Organize.archiveThr cfg)).contains "Archive" = false) :
    Organize.processEntry cfg s n = s := by
  rw [processEntry_eligible_eval cfg s n d herr hlk hh hsz hpre hded hdry hunm]
  have harch2 : ¬ ("Archive" ∈ Organize.handle_archiving "." d.mtime (Organize.archiveThr cfg)) := by
    simpa using harch
  simp [hip, harch2, FS.existsPath]

/-- The per-entry loop body never sets the error under these flags. -/
theorem processEntry_err_none (cfg : Organize.Cfg) (s : Organize.St) (n : String)
    (hpre : cfg.date_prefixing = none) (hded : cfg.deduping = false)
    (hdry : cfg.dry_run = false) (hunm : cfg.unmovable = [])
    (herr : s.err = none) : (Organize.processEntry cfg s n).err = none := by
  cases hlk : FS.lookupNode s.fs [n] with
  | none => rw [processEntry_lookup_none cfg s n hlk]; exact herr
  | some nd =>
    cases nd with
    | dir => rw [processEntry_dir cfg s n hlk]; exact herr
    | file d =>
      by_cases hh : pyStartsWith n "." = true
      · rw [processEntry_hidden cfg s n d hlk hh]; exact herr
      · have hh2 : pyStartsWith n "." = false := by revert hh; cases pyStartsWith n "." <;> simp
        by_cases hsz : Organize.sizeTooSmall cfg d = true
        · rw [processEntry_small cfg s n d hlk hh2 hsz]; exact herr
        · have hsz2 : Organize.sizeTooSmall cfg d = false := by
            revert hsz; cases Organize.sizeTooSmall cfg d <;> simp
          rw [processEntry_eligible_eval cfg s n d herr hlk hh2 hsz2 hpre hded hdry hunm]
          simp [herr, apply_ite]

theorem handle_archiving_ne_nil (c : String) (mt : Int) (thr : Option Int) :
    Organize.handle_archiving c mt thr ≠ [] := by
  unfold Organize.handle_archiving
  cases thr with
  | none => simp
  | some t =>
    by_cases h : mt < t
    · simp [h]
    · simp [h]

theorem step_moved_aux (sfs : FS) (n m : String) (nd : Node) (d : FileData) (TF : FPath)
    (hTF : TF ≠ []) (fs1 : FS)
    (hfs1 : ∀ q v, FS.lookupNode fs1 q = some v → FS.lookupNode sfs q = some v ∨ v = Node.dir)
    (tp : FPath) (htp : ∃ z, tp = TF ++ [z])
    (hm : FS.lookupNode (FS.erase fs1 [n] ++ [(tp, Node.file d)]) [m] = some nd) :
    (nd = Node.dir ∨ FS.lookupNode sfs [m] = some nd) ∧ m ≠ n := by
  obtain ⟨z, rfl⟩ := htp
  rw [lookupNode_append_or] at hm
  have hsing : FS.lookupNode [(TF ++ [z], Node.file d)] [m] = none := by
    rw [FS.lookupNode, if_neg (append_single_ne_single TF hTF z m)]
    rfl
  rw [hsing] at hm
  rw [show ∀ o : Option Node, o.or none = o from fun o => by cases o <;> rfl] at hm
  by_cases hmn : m = n
  · subst hmn
    rw [lookupNode_erase_self] at hm
    cases hm
  · have hne : ([m] : FPath) ≠ [n] := by
      intro hc
      exact hmn (by injection hc)
    rw [lookupNode_erase fs1 [n] [m] hne] at hm
    rcases hfs1 [m] nd hm with h1 | h1
    · exact ⟨Or.inr h1, hmn⟩
    · exact ⟨Or.inl h1, hmn⟩

/-- After processing one entry (real run, no prefixing, no dedup, no injected
failures), every name on disk either was already there unprocessed, or is a
benign entry (a created directory, or the processed file itself when its
destination equals its source). -/
theorem processEntry_step (cfg : Organize.Cfg) (s : Organize.St) (n : String)
    (hpre : cfg.date_prefixing = none) (hded : cfg.deduping = false)
    (hdry : cfg.dry_run = false) (hunm : cfg.unmovable = [])
    (herr : s.err = none) (m : String) (nd : Node)
    (hm : FS.lookupNode (Organize.processEntry cfg s n).fs [m] = some nd) :
    benign cfg (m, nd) ∨ (FS.lookupNode s.fs [m] = some nd ∧ m ≠ n) := by
  cases hlk : FS.lookupNode s.fs [n] with
  | none =>
    rw [processEntry_lookup_none cfg s n hlk] at hm
    by_cases hmn : m = n
    · subst hmn
      rw [hlk] at hm
      cases hm
    · exact Or.inr ⟨hm, hmn⟩
  | some nd0 =>
    cases nd0 with
    | dir =>
      rw [processEntry_dir cfg s n hlk] at hm
      by_cases hmn : m = n
      · subst hmn
        rw [hlk] at hm
        cases hm
        exact Or.inl trivial
      · exact Or.inr ⟨hm, hmn⟩
    | file d =>
      by_cases hh : pyStartsWith n "." = true
      · rw [processEntry_hidden cfg s n d hlk hh] at hm
        by_cases hmn : m = n
        · subst hmn
          rw [hlk] at hm
          cases hm
          exact Or.inl (Or.inl hh)
        · exact Or.inr ⟨hm, hmn⟩
      · have hh2 : pyStartsWith n "." = false := by
          revert hh; cases pyStartsWith n "." <;> simp
        by_cases hsz : Organize.sizeTooSmall cfg d = true
        · rw [processEntry_small cfg s n d hlk hh2 hsz] at hm
          by_cases hmn : m = n
          · subst hmn
            rw [hlk] at hm
            cases hm
            exact Or.inl (Or.inr (Or.inl hsz))
          · exact Or.inr ⟨hm, hmn⟩
        · have hsz2 : Organize.sizeTooSmall cfg d = false := by
            revert hsz; cases Organize.sizeTooSmall cfg d <;> simp
          by_cases hip : cfg.in_place = true
          · by_cases harch : (Organize.handle_archiving "." d.mtime (Organize.archiveThr cfg)).contains "Archive" = true
            · -- in-place, archived: the file moves to Archive/<n>
              rw [processEntry_eligible_eval cfg s n d herr hlk hh2 hsz2 hpre hded hdry hunm] at hm
              simp only [hip, if_true, harch] at hm
              rw [if_pos (append_single_ne_single ["Archive"] (by decide) n n)] at hm
              set fs1 := if ¬ FS.existsPath s.fs ["Archive"] = true then FS.mkdirP s.fs ["Archive"] else s.fs with hfs1def
              have hlkfs1 : FS.lookupNode fs1 [n] = some (Node.file d) := by
                rw [hfs1def]
                by_cases hex : FS.existsPath s.fs ["Archive"] = true
                · simp only [hex, not_true_eq_false, Bool.false_eq_true, if_false]
                  exact hlk
                · rw [if_pos (by simp [hex])]
                  exact mkdirP_lookup_some s.fs ["Archive"] [n] (Node.file d) hlk
              rw [execute_move_eval fs1 [n] ["Archive"] (["Archive"] ++ [n]) n (Node.file d) hlkfs1] at hm
              simp only [Organize.St.fs] at hm
              have haux := step_moved_aux s.fs n m nd d ["Archive"] (by decide) fs1
                (by
                  intro q v hv
                  rw [hfs1def] at hv
                  by_cases hex : FS.existsPath s.fs ["Archive"] = true
                  · simp only [hex, not_true_eq_false, Bool.false_eq_true, if_false] at hv
                    exact Or.inl hv
                  · rw [if_pos (by simp [hex])] at hv
                    exact mkdirP_lookup_inv s.fs ["Archive"] q v hv)
                _ (resolveTarget_shape fs1 ["Archive"] (stemOf n) (sufOf n) (fs1.length + 1)
                  (["Archive"] ++ [n]) 1 n rfl) hm
              rcases haux with ⟨h1 | h1, hmn⟩
              · subst h1
                exact Or.inl trivial
              · exact Or.inr ⟨h1, hmn⟩
            · -- in-place, not archived: no-op
              have harch2 : (Organize.handle_archiving "." d.mtime (Organize.archiveThr cfg)).contains "Archive" = false := by
                revert harch
                cases (Organize.handle_archiving "." d.mtime (Organize.archiveThr cfg)).contains "Archive" <;> simp
              rw [processEntry_inplace_noop cfg s n d herr hlk hh2 hsz2 hpre hded hdry hunm hip harch2] at hm
              by_cases hmn : m = n
              · subst hmn
                rw [hlk] at hm
                cases hm
                exact Or.inl (Or.inr (Or.inr ⟨hip, harch2⟩))
              · exact Or.inr ⟨hm, hmn⟩
          · -- not in place: the file moves into its category folder
            have hip2 : cfg.in_place = false := by
              revert hip; cases cfg.in_place <;> simp
            rw [processEntry_eligible_eval cfg s n d herr hlk hh2 hsz2 hpre hded hdry hunm] at hm
            simp only [hip2, Bool.false_eq_true, if_false] at hm
            set TF := Organize.handle_archiving (Organize.categoryName cfg n) d.mtime (Organize.archiveThr cfg) with hTFdef
            have hTFne : TF ≠ [] := handle_archiving_ne_nil _ _ _
            rw [if_pos (append_single_ne_single TF hTFne n n)] at hm
            set fs1 := if ¬ FS.existsPath s.fs TF = true then FS.mkdirP s.fs TF else s.fs with hfs1def
            have hlkfs1 : FS.lookupNode fs1 [n] = some (Node.file d) := by
              rw [hfs1def]
              by_cases hex : FS.existsPath s.fs TF = true
              · simp only [hex, not_true_eq_false, Bool.false_eq_true, if_false]
                exact hlk
              · rw [if_pos (by simp [hex])]
                exact mkdirP_lookup_some s.fs TF [n] (Node.file d) hlk
            rw [execute_move_eval fs1 [n] TF (TF ++ [n]) n (Node.file d) hlkfs1] at hm
            simp only [Organize.St.fs] at hm
            have haux := step_moved_aux s.fs n m nd d TF hTFne fs1
              (by
                intro q v hv
                rw [hfs1def] at hv
                by_cases hex : FS.existsPath s.fs TF = true
                · simp only [hex, not_true_eq_false, Bool.false_eq_true, if_false] at hv
                  exact Or.inl hv
                · rw [if_pos (by simp [hex])] at hv
                  exact mkdirP_lookup_inv s.fs TF q v hv)
              _ (resolveTarget_shape fs1 TF (stemOf n) (sufOf n) (fs1.length + 1)
                (TF ++ [n]) 1 n rfl) hm
            rcases haux with ⟨h1 | h1, hmn⟩
            · subst h1
              exact Or.inl trivial
            · exact Or.inr ⟨h1, hmn⟩

theorem mem_listing_of_lookup (fs : FS) (m : String) (nd : Node)
    (h : FS.lookupNode fs [m] = some nd) : m ∈ FS.listing fs := by
  induction fs with
  | nil => cases h
  | cons e rest ih =>
    rw [FS.lookupNode] at h
    by_cases he : e.1 = [m]
    · unfold FS.listing
      rw [List.filterMap_cons, he]
      exact List.mem_cons_self m _
    · rw [if_neg he] at h
      have hmem := ih h
      unfold FS.listing at hmem ⊢
      rw [List.filterMap_cons]
      cases hfe : (match e.1 with | [x] => some x | _ => (none : Option String)) with
      | none => exact hmem
      | some y => exact List.mem_cons_of_mem y hmem

/-- After a full run under these flags, every name on disk resolves to a
benign entry (or the run was dry). -/
theorem run1_lookup_benign (cfg : Organize.Cfg) (fs0 : FS)
    (hpre : cfg.date_prefixing = none) (hded : cfg.deduping = false)
    (hunm : cfg.unmovable = []) :
    ∀ m nd, FS.lookupNode (Organize.organizeFiles cfg fs0).fs [m] = some nd →
      benign cfg (m, nd) ∨ cfg.dry_run = true := by
  by_cases hdry : cfg.dry_run = true
  · intro m nd _
    exact Or.inr hdry
  · have hdry2 : cfg.dry_run = false := by
      revert hdry; cases cfg.dry_run <;> simp
    have key : ∀ (names : List String) (s : Organize.St), s.err = none →
        (∀ m nd, FS.lookupNode s.fs [m] = some nd → benign cfg (m, nd) ∨ m ∈ names) →
        ∀ m nd, FS.lookupNode (names.foldl (Organize.processEntry cfg) s).fs [m] = some nd →
          benign cfg (m, nd) := by
      intro names
      induction names with
      | nil =>
        intro s herr hinv m nd hm
        rcases hinv m nd hm with hb | hmem
        · exact hb
        · cases hmem
      | cons x rest ih =>
        intro s herr hinv m nd hm
        rw [List.foldl_cons] at hm
        refine ih (Organize.processEntry cfg s x)
          (processEntry_err_none cfg s x hpre hded hdry2 hunm herr) ?_ m nd hm
        intro m2 nd2 hm2
        rcases processEntry_step cfg s x hpre hded hdry2 hunm herr m2 nd2 hm2 with hb | ⟨hl, hne⟩
        · exact Or.inl hb
        · rcases hinv m2 nd2 hl with hb | hmem
          · exact Or.inl hb
          · right
            rcases List.mem_cons.mp hmem with hx | hr
            · exact absurd hx hne
            · exact hr
    intro m nd hm
    exact Or.inl (key (FS.listing fs0) { fs := fs0, seen := [], moves := 0, err := none } rfl
      (fun m2 nd2 h2 => Or.inr (mem_listing_of_lookup fs0 m2 nd2 h2)) m nd hm)

/-- A run over a filesystem whose every name resolves benignly (or any dry
run) is the identity on the state. -/
theorem run2_noop_aux (cfg : Organize.Cfg) (fs1 : FS)
    (hpre : cfg.date_prefixing = none) (hded : cfg.deduping = false)
    (hunm : cfg.unmovable = [])
    (hb : ∀ m nd, FS.lookupNode fs1 [m] = some nd → benign cfg (m, nd) ∨ cfg.dry_run = true) :
    Organize.organizeFiles cfg fs1 = { fs := fs1, seen := [], moves := 0, err := none } := by
  show (FS.listing fs1).foldl (Organize.processEntry cfg) _ = _
  generalize FS.listing fs1 = names
  induction names with
  | nil => rfl
  | cons x rest ih =>
    rw [List.foldl_cons]
    have hx : Organize.processEntry cfg { fs := fs1, seen := [], moves := 0, err := none } x =
        { fs := fs1, seen := [], moves := 0, err := none } := by
      by_cases hdry : cfg.dry_run = true
      · exact processEntry_dry_noop cfg _ x hpre hded hdry
      · have hdry2 : cfg.dry_run = false := by
          revert hdry; cases cfg.dry_run <;> simp
        cases hlk : FS.lookupNode fs1 [x] with
        | none => exact processEntry_lookup_none cfg _ x hlk
        | some nd =>
          rcases hb x nd hlk with hben | hdd
          · cases nd with
            | dir =>
              exact processEntry_dir cfg { fs := fs1, seen := [], moves := 0, err := none } x hlk
            | file d =>
              by_cases hh : pyStartsWith x "." = true
              · exact processEntry_hidden cfg { fs := fs1, seen := [], moves := 0, err := none } x d hlk hh
              · have hh2 : pyStartsWith x "." = false := by
                  revert hh; cases pyStartsWith x "." <;> simp
                by_cases hsz : Organize.sizeTooSmall cfg d = true
                · exact processEntry_small cfg { fs := fs1, seen := [], moves := 0, err := none } x d hlk hh2 hsz
                · have hsz2 : Organize.sizeTooSmall cfg d = false := by
                    revert hsz; cases Organize.sizeTooSmall cfg d <;> simp
                  rcases hben with hhid | hs | ⟨hip, harch⟩
                  · exact absurd hhid hh
                  · exact absurd hs hsz
                  · exact processEntry_inplace_noop cfg { fs := fs1, seen := [], moves := 0, err := none } x d rfl hlk hh2 hsz2 hpre hded hdry2 hunm hip harch
          · exact absurd hdd hdry
    rw [hx]
    exact ih

/-- C1 (amended): with delete-duplicates disabled and additionally
deduplication and date-prefixing disabled, and no injected move failures, a
second run of `organize_files` with identical flags is a complete no-op: it
performs zero moves, raises nothing, and returns the directory tree of the
first run unchanged. -/
theorem second_run_noop (cfg : Organize.Cfg) (fs0 : FS)
    (hpre : cfg.date_prefixing = none) (hded : cfg.deduping = false)
    (hdel : cfg.delete_duplicates = false) (hunm : cfg.unmovable = []) :
    Organize.organizeFiles cfg (Organize.organizeFiles cfg fs0).fs =
      { fs := (Organize.organizeFiles cfg fs0).fs, seen := [], moves := 0, err := none } :=
  run2_noop_aux cfg (Organize.organizeFiles cfg fs0).fs hpre hded hunm
    (run1_lookup_benign cfg fs0 hpre hded hunm)

/-- Witness for the amended C1 at a concrete directory holding a regular
file, a hidden file and a directory: the second run is the identity. -/
theorem second_run_noop_witness :
    Organize.organizeFiles baseCfg
      (Organize.organizeFiles baseCfg
        [(["a.pdf"], Node.file dSample), ([".hid"], Node.file dSample), (["notes"], Node.dir)]).fs =
      { fs := (Organize.organizeFiles baseCfg
          [(["a.pdf"], Node.file dSample), ([".hid"], Node.file dSample), (["notes"], Node.dir)]).fs,
        seen := [], moves := 0, err := none } :=
  second_run_noop baseCfg
    [(["a.pdf"], Node.file dSample), ([".hid"], Node.file dSample), (["notes"], Node.dir)]
    rfl rfl rfl rfl

/-- Counterexample to C1 as stated: two flag configurations with
delete-duplicates disabled under which the second run does move again.
With in-place mode and 'created' date-prefixing, the file renamed by the
first run is prefixed a second time (organize.py's `_apply_date_prefix` has
no already-prefixed guard), so the second run performs a move and changes
the tree.  With dedup enabled (delete off), the duplicate skipped by the
first run is still in the source and the second run — whose seen-hash set
starts empty and whose target check finds no file at the duplicate's own
destination name — moves it. -/
theorem second_run_moves_again_counterexample :
    ((Organize.organizeFiles { baseCfg with in_place := true, date_prefixing := some "created" }
        (Organize.organizeFiles { baseCfg with in_place := true, date_prefixing := some "created" }
          [(["a.txt"], Node.file dSample)]).fs).moves = 1 ∧
      (Organize.organizeFiles { baseCfg with in_place := true, date_prefixing := some "created" }
        (Organize.organizeFiles { baseCfg with in_place := true, date_prefixing := some "created" }
          [(["a.txt"], Node.file dSample)]).fs).fs =
        [(["1970-01-03_1970-01-03_a.txt"], Node.file dSample)]) ∧
    ((Organize.organizeFiles { baseCfg with deduping := true }
        (Organize.organizeFiles { baseCfg with deduping := true }
          [(["a.pdf"], Node.file dSample), (["b.pdf"], Node.file dSample)]).fs).moves = 1) := by
  refine ⟨⟨?_, ?_⟩, ?_⟩ <;> decide
